import Mathlib

/-!
# ssu repository manager (libssu/ssurepomanager.cpp)

A shallow embedding of `SsuRepoManager::update` (reconciliation of the directory of
generated repository files), `SsuRepoManager::url` (parameter merge and template
selection) and the registry operations `add`, `disable`, `enable` and `remove`, followed by
the properties proved about them.

Conventions of the embedding:

* a `QString` is the list of its characters;
* the directory `ZYPP_REPO_PATH` is a finite map from file names to file contents: its
  entries are the plain files that a `QDirIterator` lists, named relative to the directory;
* the name filter `ssu_*` of the second scan selects the names that begin with `ssu_`;
* a settings store is a flat map from full keys (`group/key`) to values, and removing a
  setting removes that one key;
* collaborators whose code is outside this translation unit (`SsuDeviceInfo`,
  `SsuVariables`, `SsuCoreConfig`, the `Ssu::DeviceMode` constants) are parameters.
-/

namespace Ssu

/-! ## Data model -/

abbrev QString := List Char

/-- The managed directory: file name to file content, names unique. -/
abbrev Dir := AList (fun _ : QString => QString)

/-- A `QHash<QString, QString>`: keys unique. -/
abbrev QHash := AList (fun _ : QString => QString)

/-- Which calls of `QFile::remove` and `QFile::open` succeed, per file name. -/
structure FileOps where
  canRemove : QString → Bool
  canOpen : QString → Bool

/-- Every file operation succeeds. -/
def FileOps.noFailure : FileOps where
  canRemove := fun _ => true
  canOpen := fun _ => true

/-- The constants of `enum Ssu::DeviceMode` (declared in ssu.h) used by `update`. -/
structure DeviceMode where
  DisableRepoManager : Int
  RndMode : Int
  LenientMode : Int

/-- The values ssu.h gives to the constants. -/
def DeviceMode.std : DeviceMode where
  DisableRepoManager := 1
  RndMode := 2
  LenientMode := 8

/-- The test `(deviceMode & flag) == flag`. -/
def hasFlag (deviceMode flag : Int) : Bool :=
  Int.land deviceMode flag == flag

/-- The collaborator `SsuDeviceInfo`. The first argument of the queries used by `url` is the
model set through `setDeviceModel`, if it was called. -/
structure SsuDeviceInfo where
  repos : Bool → List QString
  deviceFamily : Option QString → QString
  deviceModel : Option QString → QString
  getValue : Option QString → QString → Option QString
  adaptationVariables : Option QString → QString → QHash → QString × QHash

/-! ## QString helpers -/

/-- `QString::split(sep)` with the default `KeepEmptyParts`. -/
def split (sep : Char) : QString → List QString
  | [] => [[]]
  | c :: cs =>
    if c = sep then [] :: split sep cs
    else
      match split sep cs with
      | [] => [[c]]
      | p :: ps => (c :: p) :: ps

/-- `QString::left(n)`. -/
def left (n : Nat) (s : QString) : QString :=
  s.take n

/-- The name filter `ssu_*`. -/
def matchesSsuFilter (fileName : QString) : Bool :=
  "ssu_".toList.isPrefixOf fileName

/-- The stream manipulator `endl` on a text-mode device. -/
def endl : QString := ['\n']

/-! ## File operations -/

/-- `QFile(path).remove()`. -/
def removeFile (ops : FileOps) (fileName : QString) (dir : Dir) : Dir :=
  if ops.canRemove fileName then dir.erase fileName else dir

/-- Opening a file `WriteOnly | Text` truncates it; the stream then writes `content`.
Nothing happens when `open` fails. -/
def writeFile (ops : FileOps) (fileName content : QString) (dir : Dir) : Dir :=
  if ops.canOpen fileName then dir.insert fileName content else dir

/-! ## update -/

/-- The strict-mode scan, lines 119-126: every listed entry whose first four characters
are not `ssu_` is removed. -/
def purgeUnmanaged (ops : FileOps) (dir : Dir) : Dir :=
  dir.keys.foldl
    (fun d fileName =>
      if left 4 fileName != "ssu_".toList then removeFile ops fileName d else d)
    dir

/-- The body of the loop of lines 132-143 for one listed file. -/
def purgeStaleStep (ops : FileOps) (rndMode : Bool) (repos : List QString)
    (d : Dir) (fileName : QString) : Dir :=
  let parts := split '_' fileName
  if parts.length = 3 then
    if !repos.contains (parts.getD 1 []) ||
        parts.getD 2 [] != (if rndMode then "rnd.repo".toList else "release.repo".toList) then
      removeFile ops fileName d
    else d
  else removeFile ops fileName d

/-- The scan of lines 130-143 over the entries matching `ssu_*`. -/
def purgeStale (ops : FileOps) (rndMode : Bool) (repos : List QString) (dir : Dir) : Dir :=
  (dir.keys.filter matchesSsuFilter).foldl (purgeStaleStep ops rndMode repos) dir

/-- The file name `ssu_%2_%3.repo` of lines 147-150, relative to `ZYPP_REPO_PATH`; each
`arg` fills its place marker, repository names being free of place markers themselves. -/
def repoFileName (rndMode : Bool) (repo : QString) : QString :=
  "ssu_".toList ++ repo ++ "_".toList ++
    (if rndMode then "rnd".toList else "release".toList) ++ ".repo".toList

/-- The text streamed into a repository file, lines 156-166. -/
def repoFileContent (rndMode : Bool) (repo : QString) : QString :=
  "[".toList ++ repo ++ "]".toList ++ endl ++
  "name=".toList ++ repo ++ endl ++
  "failovermethod=priority".toList ++ endl ++
  "type=rpm-md".toList ++ endl ++
  "gpgcheck=0".toList ++ endl ++
  "enabled=1".toList ++ endl ++
  (if rndMode then "baseurl=plugin:ssu?rnd&repo=".toList ++ repo ++ endl
   else "baseurl=plugin:ssu?repo=".toList ++ repo ++ endl)

/-- The loop of lines 146-170. -/
def writeRepos (ops : FileOps) (rndMode : Bool) (repos : List QString) (dir : Dir) : Dir :=
  repos.foldl
    (fun d repo => writeFile ops (repoFileName rndMode repo) (repoFileContent rndMode repo) d)
    dir

/-- `SsuRepoManager::update`. `deviceMode` is the integer read from the setting
`deviceMode`; the result is the directory the call leaves behind. -/
def update (ops : FileOps) (flags : DeviceMode) (deviceInfo : SsuDeviceInfo)
    (deviceMode : Int) (dir : Dir) : Dir :=
  if hasFlag deviceMode flags.DisableRepoManager then dir
  else
    let rndMode := hasFlag deviceMode flags.RndMode
    let repos := deviceInfo.repos rndMode
    let dir1 :=
      if !hasFlag deviceMode flags.LenientMode && !repos.isEmpty then purgeUnmanaged ops dir
      else dir
    let dir2 := purgeStale ops rndMode repos dir1
    writeRepos ops rndMode repos dir2

/-- A list of lines as a text, each line terminated by a newline. -/
def unlines (ls : List QString) : QString :=
  (ls.map (fun l => l ++ endl)).flatten

/-! ## Settings and collaborators of url -/

/-- The `QVariant` values the settings hold. -/
inductive QVariant where
  | invalid
  | string (s : QString)
  | stringList (l : List QString)
  deriving DecidableEq

/-- `QVariant::toString()`: a string list converts when it has exactly one item. -/
def QVariant.toString : QVariant → QString
  | QVariant.string s => s
  | QVariant.stringList [s] => s
  | _ => []

/-- `QVariant::toStringList()`. -/
def QVariant.toStringList : QVariant → List QString
  | QVariant.string s => [s]
  | QVariant.stringList l => l
  | QVariant.invalid => []

/-- A `QSettings` object: full key (`group/key`) to value. -/
abbrev QSettings := AList (fun _ : QString => QVariant)

/-- `QSettings::contains`. -/
def QSettings.contains (s : QSettings) (key : QString) : Bool :=
  (s.lookup key).isSome

/-- `QSettings::value`: an invalid variant when the key is missing. -/
def QSettings.value (s : QSettings) (key : QString) : QVariant :=
  (s.lookup key).getD QVariant.invalid

/-- `QHash::contains`. -/
def QHash.contains (h : QHash) (key : QString) : Bool :=
  (h.lookup key).isSome

/-- The `SsuCoreConfig` singleton: a `QSettings` store with the accessors `flavour()`,
`release(rnd)` and `domain()`, whose code is in ssucoreconfig.cpp. -/
structure SsuCoreConfig where
  store : QSettings
  flavour : QString
  release : Bool → QString
  domain : QString

/-- The collaborator `SsuVariables` (ssuvariables.cpp): `resolveSection` updates a parameter
map from a section of a settings object, `resolveString` expands a template. -/
structure SsuVariables where
  resolveSection : QSettings → QString → QHash → QHash
  resolveString : QString → QHash → QString

/-! ## url -/

/-- Lines 194-209, the parameter part: the flavour variables of an rnd repository. -/
def flavourStep (var : SsuVariables) (settings : SsuCoreConfig) (repoSettings : QSettings)
    (rndRepo : Bool) (p : QHash) : QHash :=
  if rndRepo then
    let pattern :=
      (repoSettings.value (settings.flavour ++ "-flavour/flavour-pattern".toList)).toString
    let p := p.insert "flavour".toList pattern
    let p := p.insert "flavourPattern".toList pattern
    let p := p.insert "flavourName".toList settings.flavour
    var.resolveSection repoSettings (settings.flavour ++ "-flavour".toList) p
  else p

/-- Lines 194-209, the list `configSections`. -/
def configSections (settings : SsuCoreConfig) (rndRepo : Bool) : List QString :=
  if rndRepo then [settings.flavour ++ "-flavour".toList, "rnd".toList, "all".toList]
  else ["release".toList, "all".toList]

/-- Lines 213-217: the defaults of `debugSplit` and `arch`. -/
def defaultsStep (settings : SsuCoreConfig) (p : QHash) : QHash :=
  let p :=
    if !QHash.contains p "debugSplit".toList then
      p.insert "debugSplit".toList "packages".toList
    else p
  if !QHash.contains p "arch".toList then
    p.insert "arch".toList (settings.store.value "arch".toList).toString
  else p

/-- Lines 225-239: the legacy `adaptation` setting and the device facts. `model` is the
model override handed to `setDeviceModel` at line 221, if any. -/
def deviceStep (settings : SsuCoreConfig) (deviceInfo : SsuDeviceInfo)
    (model : Option QString) (p : QHash) : QHash :=
  let p :=
    if settings.store.contains "adaptation".toList then
      p.insert "adaptation".toList (settings.store.value "adaptation".toList).toString
    else p
  let p := p.insert "deviceFamily".toList (deviceInfo.deviceFamily model)
  let p := p.insert "deviceModel".toList (deviceInfo.deviceModel model)
  ["chip".toList, "adaptation".toList, "vendor".toList].foldl
    (fun p key =>
      match deviceInfo.getValue model key with
      | some value => p.insert key value
      | none => p)
    p

/-- Lines 251-255: every entry of `parametersOverride` is inserted. -/
def overrideStep (parametersOverride : QHash) (p : QHash) : QHash :=
  parametersOverride.entries.foldl (fun p e => p.insert e.1 e.2) p

/-- Lines 188-255 of `url`: the repository name as rewritten by `adaptationVariables` and the
finalized parameter map, the one handed to `resolveString` at line 271. -/
def urlParameters (var : SsuVariables) (settings : SsuCoreConfig) (repoSettings : QSettings)
    (deviceInfo : SsuDeviceInfo) (repoName : QString) (rndRepo : Bool)
    (repoParameters parametersOverride : QHash) : QString × QHash :=
  let p := var.resolveSection settings.store "repository-url-variables".toList repoParameters
  let p := flavourStep var settings repoSettings rndRepo p
  let p := p.insert "release".toList (settings.release rndRepo)
  let p := defaultsStep settings p
  let model := parametersOverride.lookup "model".toList
  let p := deviceStep settings deviceInfo model p
  let renamed := deviceInfo.adaptationVariables model repoName p
  let p := var.resolveSection repoSettings "default-domain".toList renamed.2
  let p := var.resolveSection repoSettings (settings.domain ++ "-domain".toList) p
  (renamed.1, overrideStep parametersOverride p)

/-- The loop of lines 260-268: the value of `repoName` in the first section that contains
it, the empty string when none does. -/
def findTemplate (repoSettings : QSettings) (repoName : QString) : List QString → QString
  | [] => []
  | sect :: rest =>
    if repoSettings.contains (sect ++ "/".toList ++ repoName) then
      (repoSettings.value (sect ++ "/".toList ++ repoName)).toString
    else findTemplate repoSettings repoName rest

/-- Lines 257-269: the template `r`, for the rewritten repository name. -/
def urlTemplate (settings : SsuCoreConfig) (repoSettings : QSettings) (rndRepo : Bool)
    (repoName : QString) : QString :=
  if settings.store.contains ("repository-urls/".toList ++ repoName) then
    (settings.store.value ("repository-urls/".toList ++ repoName)).toString
  else findTemplate repoSettings repoName (configSections settings rndRepo)

/-- `SsuRepoManager::url`. -/
def url (var : SsuVariables) (settings : SsuCoreConfig) (repoSettings : QSettings)
    (deviceInfo : SsuDeviceInfo) (repoName : QString) (rndRepo : Bool)
    (repoParameters parametersOverride : QHash) : QString :=
  let renamed :=
    urlParameters var settings repoSettings deviceInfo repoName rndRepo repoParameters
      parametersOverride
  var.resolveString (urlTemplate settings repoSettings rndRepo renamed.1) renamed.2

/-! ## Registry: add, disable, enable, remove -/

/-- `QSettings::setValue`. -/
def QSettings.setValue (s : QSettings) (key : QString) (value : QVariant) : QSettings :=
  s.insert key value

/-- `QSettings::remove`, for a key that stands for one setting. -/
def QSettings.remove (s : QSettings) (key : QString) : QSettings :=
  s.erase key

/-- The scan behind `QStringList::removeDuplicates`: an entry is kept when it was not seen
before, so every value survives at its first occurrence. -/
def removeDuplicatesFrom (seen : List QString) : List QString → List QString
  | [] => []
  | x :: xs =>
    if x ∈ seen then removeDuplicatesFrom seen xs
    else x :: removeDuplicatesFrom (x :: seen) xs

/-- `QStringList::removeDuplicates`. -/
def removeDuplicates (l : List QString) : List QString :=
  removeDuplicatesFrom [] l

/-- `QStringList::removeAll`. -/
def removeAll (l : List QString) (repo : QString) : List QString :=
  l.filter (fun x => x != repo)

/-- `SsuRepoManager::add`, lines 25-41; `sync` persists the store and changes nothing in it. -/
def add (ssuSettings : SsuCoreConfig) (repo repoUrl : QString) : SsuCoreConfig :=
  if repoUrl = [] then
    let enabledRepos : List QString :=
      if ssuSettings.store.contains "enabled-repos".toList then
        (ssuSettings.store.value "enabled-repos".toList).toStringList
      else []
    let enabledRepos := enabledRepos ++ [repo]
    let enabledRepos := removeDuplicates enabledRepos
    { ssuSettings with
      store := ssuSettings.store.setValue "enabled-repos".toList
        (QVariant.stringList enabledRepos) }
  else
    { ssuSettings with
      store := ssuSettings.store.setValue ("repository-urls/".toList ++ repo)
        (QVariant.string repoUrl) }

/-- `SsuRepoManager::disable`, lines 43-55. -/
def disable (ssuSettings : SsuCoreConfig) (repo : QString) : SsuCoreConfig :=
  let disabledRepos : List QString :=
    if ssuSettings.store.contains "disabled-repos".toList then
      (ssuSettings.store.value "disabled-repos".toList).toStringList
    else []
  let disabledRepos := disabledRepos ++ [repo]
  let disabledRepos := removeDuplicates disabledRepos
  { ssuSettings with
    store := ssuSettings.store.setValue "disabled-repos".toList
      (QVariant.stringList disabledRepos) }

/-- `SsuRepoManager::enable`, lines 57-69. -/
def enable (ssuSettings : SsuCoreConfig) (repo : QString) : SsuCoreConfig :=
  let disabledRepos : List QString :=
    if ssuSettings.store.contains "disabled-repos".toList then
      (ssuSettings.store.value "disabled-repos".toList).toStringList
    else []
  let disabledRepos := removeAll disabledRepos repo
  let disabledRepos := removeDuplicates disabledRepos
  { ssuSettings with
    store := ssuSettings.store.setValue "disabled-repos".toList
      (QVariant.stringList disabledRepos) }

/-- `SsuRepoManager::remove`, lines 71-86. -/
def remove (ssuSettings : SsuCoreConfig) (repo : QString) : SsuCoreConfig :=
  let store :=
    if ssuSettings.store.contains ("repository-urls/".toList ++ repo) then
      ssuSettings.store.remove ("repository-urls/".toList ++ repo)
    else ssuSettings.store
  let store :=
    if store.contains "enabled-repos".toList then
      let enabledRepos := (store.value "enabled-repos".toList).toStringList
      if enabledRepos.contains repo then
        let enabledRepos := removeAll enabledRepos repo
        let enabledRepos := removeDuplicates enabledRepos
        store.setValue "enabled-repos".toList (QVariant.stringList enabledRepos)
      else store
    else store
  { ssuSettings with store := store }

/-- The string list stored under `key`, as `value(key).toStringList()` reads it. -/
def storedList (ssuSettings : SsuCoreConfig) (key : QString) : List QString :=
  (ssuSettings.store.value key).toStringList

/-! ## Auxiliary definitions for the proofs -/

/-- Whether the loop body of the stale scan removes the file. -/
def isStale (rndMode : Bool) (repos : List QString) (fileName : QString) : Bool :=
  let parts := split '_' fileName
  if parts.length = 3 then
    !repos.contains (parts.getD 1 []) ||
      parts.getD 2 [] != (if rndMode then "rnd.repo".toList else "release.repo".toList)
  else true

/-- Parts joined again with the separator between them. -/
def joinWith (sep : Char) : List QString → QString
  | [] => []
  | [p] => p
  | p :: q :: r => p ++ sep :: joinWith sep (q :: r)

/-- The position of the first occurrence of `a` in `l` (the length of `l` when `a` does not
occur), used to compare the order of entries. -/
def firstIndex (a : QString) : List QString → Nat
  | [] => 0
  | x :: xs => if x = a then 0 else firstIndex a xs + 1

/-! ## Concrete inputs used by the examples -/

/-- Device facts that list `foo` and `a_b` in both modes. -/
def exampleDeviceInfo : SsuDeviceInfo where
  repos := fun _ => ["foo".toList, "a_b".toList]
  deviceFamily := fun _ => []
  deviceModel := fun _ => []
  getValue := fun _ _ => none
  adaptationVariables := fun _ repoName params => (repoName, params)

/-- Device facts that list no repository. -/
def emptyDeviceInfo : SsuDeviceInfo where
  repos := fun _ => []
  deviceFamily := fun _ => []
  deviceModel := fun _ => []
  getValue := fun _ _ => none
  adaptationVariables := fun _ repoName params => (repoName, params)

/-- A directory with a malformed managed name, a stale four-part managed name and an
unmanaged file. -/
def exampleDir : Dir :=
  (((∅ : Dir).insert "ssu_bad.repo".toList "x".toList).insert
    "ssu_a_b_release.repo".toList "old".toList).insert "other.repo".toList "y".toList

/-- An expander that fills nothing in and returns templates unchanged. -/
def exampleVariables : SsuVariables where
  resolveSection := fun _ _ p => p
  resolveString := fun r _ => r

/-- Settings with an explicit URL for `foo` and one for `adaptation1`. -/
def exampleSettings : SsuCoreConfig where
  store :=
    ((∅ : QSettings).insert "repository-urls/foo".toList
        (QVariant.string "http://example/foo".toList)).insert
      "repository-urls/adaptation1".toList (QVariant.string "http://example/adaptation1".toList)
  flavour := "devel".toList
  release := fun _ => "latest".toList
  domain := "sales".toList

/-- A repository configuration whose section `all` has the keys `foo` and `adaptation`. -/
def exampleRepoSettings : QSettings :=
  ((∅ : QSettings).insert "all/foo".toList (QVariant.string "http://all/foo".toList)).insert
    "all/adaptation".toList (QVariant.string "http://all/adaptation".toList)

/-- Device facts that rewrite the repository name `adaptation1` to `adaptation`. -/
def adaptationDeviceInfo : SsuDeviceInfo where
  repos := fun _ => ["adaptation1".toList]
  deviceFamily := fun _ => []
  deviceModel := fun _ => []
  getValue := fun _ _ => none
  adaptationVariables := fun _ repoName params =>
    if repoName = "adaptation1".toList then ("adaptation".toList, params) else (repoName, params)

/-- Settings whose lists hold duplicates: enabled-repos = foo, bar, foo and
disabled-repos = foo, baz, foo, next to an explicit URL for foo. -/
def registrySettings : SsuCoreConfig where
  store :=
    (((∅ : QSettings).insert "enabled-repos".toList
        (QVariant.stringList ["foo".toList, "bar".toList, "foo".toList])).insert
      "disabled-repos".toList
        (QVariant.stringList ["foo".toList, "baz".toList, "foo".toList])).insert
      "repository-urls/foo".toList (QVariant.string "http://example/foo".toList)
  flavour := "devel".toList
  release := fun _ => "latest".toList
  domain := "sales".toList

/-- Device facts of family fam and model mod whose provider supplies chip only. -/
def factsDeviceInfo : SsuDeviceInfo where
  repos := fun _ => []
  deviceFamily := fun _ => "fam".toList
  deviceModel := fun _ => "mod".toList
  getValue := fun _ key => if key = "chip".toList then some "devchip".toList else none
  adaptationVariables := fun _ repoName params => (repoName, params)

/-- Caller parameters that set chip and deviceFamily. -/
def callerFacts : QHash :=
  ((∅ : QHash).insert "chip".toList "mine".toList).insert "deviceFamily".toList "myfam".toList

/-- File operations that cannot remove ssu_bad.repo and cannot open ssu_foo_release.repo. -/
def flakyOps : FileOps where
  canRemove := fun f => f != "ssu_bad.repo".toList
  canOpen := fun f => f != "ssu_foo_release.repo".toList

/-! ## Lemmas on QString, the file operations and the scans -/

theorem split_ne_nil (sep : Char) (s : QString) : split sep s ≠ [] := by
  induction s with
  | nil => simp [split]
  | cons c cs ih =>
    unfold split
    split_ifs
    · simp
    · cases h : split sep cs with
      | nil => exact absurd h ih
      | cons p ps => simp

theorem joinWith_split (sep : Char) (s : QString) : joinWith sep (split sep s) = s := by
  induction s with
  | nil => simp [split, joinWith]
  | cons c cs ih =>
    unfold split
    split_ifs with hc
    · cases h : split sep cs with
      | nil => exact absurd h (split_ne_nil sep cs)
      | cons p ps =>
        rw [h] at ih
        simp [joinWith, ih, hc]
    · cases h : split sep cs with
      | nil => exact absurd h (split_ne_nil sep cs)
      | cons p ps =>
        rw [h] at ih
        cases ps with
        | nil => simp [joinWith] at ih ⊢; exact ih
        | cons q r => simp [joinWith] at ih ⊢; exact ih

theorem split_ssu (rest : QString) :
    split '_' ("ssu_".toList ++ rest) = "ssu".toList :: split '_' rest := by
  show split '_' ('s' :: 's' :: 'u' :: '_' :: rest) = ['s', 's', 'u'] :: split '_' rest
  simp [split]

theorem matchesSsuFilter_iff (m : QString) :
    matchesSsuFilter m = true ↔ ∃ rest, m = "ssu_".toList ++ rest := by
  unfold matchesSsuFilter
  rw [List.isPrefixOf_iff_prefix]
  constructor
  · rintro ⟨t, ht⟩; exact ⟨t, ht.symm⟩
  · rintro ⟨t, ht⟩; exact ⟨t, ht.symm⟩
theorem left_ssu (m : QString) :
    (left 4 m != "ssu_".toList) = !matchesSsuFilter m := by
  have h : (left 4 m = "ssu_".toList) ↔ matchesSsuFilter m = true := by
    unfold matchesSsuFilter left
    rw [List.isPrefixOf_iff_prefix, List.prefix_iff_eq_take]
    constructor
    · intro h; exact h.symm
    · intro h; exact h.symm
  by_cases hm : matchesSsuFilter m = true
  · simp [hm, h.mpr hm]
  · have hne : left 4 m ≠ "ssu_".toList := fun e => hm (h.mp e)
    have e1 : (left 4 m != "ssu_".toList) = true := bne_iff_ne.mpr hne
    rw [e1]
    simp [hm]

theorem purgeStaleStep_eq (ops : FileOps) (rndMode : Bool) (repos : List QString)
    (d : Dir) (fileName : QString) :
    purgeStaleStep ops rndMode repos d fileName =
      if isStale rndMode repos fileName then removeFile ops fileName d else d := by
  unfold purgeStaleStep isStale
  by_cases h : (split '_' fileName).length = 3 <;> simp [h]

theorem lookup_removeFile (ops : FileOps) (f m : QString) (d : Dir) :
    (removeFile ops f d).lookup m =
      if m = f ∧ ops.canRemove f = true then none else d.lookup m := by
  unfold removeFile
  by_cases hc : ops.canRemove f = true
  · by_cases hm : m = f
    · subst hm; simp [hc, AList.lookup_erase]
    · simp [hc, hm, AList.lookup_erase_ne hm]
  · simp [hc]

theorem lookup_writeFile (ops : FileOps) (f c m : QString) (d : Dir) :
    (writeFile ops f c d).lookup m =
      if m = f ∧ ops.canOpen f = true then some c else d.lookup m := by
  unfold writeFile
  by_cases hc : ops.canOpen f = true
  · by_cases hm : m = f
    · subst hm; simp [hc, AList.lookup_insert]
    · simp [hc, hm, AList.lookup_insert_ne hm]
  · simp [hc]

/-- A scan that removes the listed names satisfying `P` removes exactly those. -/
theorem lookup_foldl_remove (ops : FileOps) (P : QString → Bool) (m : QString)
    (names : List QString) (d : Dir) :
    (names.foldl (fun d f => if P f then removeFile ops f d else d) d).lookup m =
      if m ∈ names ∧ P m = true ∧ ops.canRemove m = true then none else d.lookup m := by
  induction names generalizing d with
  | nil => simp
  | cons a rest ih =>
    rw [List.foldl_cons, ih]
    by_cases h1 : m ∈ rest ∧ P m = true ∧ ops.canRemove m = true
    · have h2 : m ∈ a :: rest ∧ P m = true ∧ ops.canRemove m = true :=
        ⟨List.mem_cons_of_mem _ h1.1, h1.2⟩
      rw [if_pos h1, if_pos h2]
    · rw [if_neg h1]
      by_cases hP : P a = true
      · rw [if_pos hP, lookup_removeFile]
        by_cases hma : m = a
        · subst hma
          by_cases hc : ops.canRemove m = true
          · simp [hP, hc]
          · simp [hc]
        · have : ¬ (m ∈ a :: rest ∧ P m = true ∧ ops.canRemove m = true) := by
            rintro ⟨hmem, hr⟩
            rcases List.mem_cons.mp hmem with e | e
            · exact hma e
            · exact h1 ⟨e, hr⟩
          have e : ¬ (m = a ∧ ops.canRemove a = true) := fun h => hma h.1
          rw [if_neg e, if_neg this]
      · rw [if_neg hP]
        have : ¬ (m ∈ a :: rest ∧ P m = true ∧ ops.canRemove m = true) := by
          rintro ⟨hmem, hr⟩
          rcases List.mem_cons.mp hmem with e | e
          · subst e; exact hP hr.1
          · exact h1 ⟨e, hr⟩
        rw [if_neg this]

theorem lookup_purgeUnmanaged (ops : FileOps) (m : QString) (d : Dir) :
    (purgeUnmanaged ops d).lookup m =
      if matchesSsuFilter m = false ∧ ops.canRemove m = true then none else d.lookup m := by
  unfold purgeUnmanaged
  have h := lookup_foldl_remove ops (fun f => left 4 f != "ssu_".toList) m d.keys d
  simp only [] at h
  rw [h, left_ssu]
  by_cases hk : m ∈ d.keys
  · simp [hk]
  · have hn : d.lookup m = none := AList.lookup_eq_none.mpr (fun hmem => hk (AList.mem_keys.mp hmem))
    simp [hk, hn]

theorem lookup_purgeStale (ops : FileOps) (rndMode : Bool) (repos : List QString)
    (m : QString) (d : Dir) :
    (purgeStale ops rndMode repos d).lookup m =
      if matchesSsuFilter m = true ∧ isStale rndMode repos m = true ∧ ops.canRemove m = true
      then none else d.lookup m := by
  unfold purgeStale
  have hfun : purgeStaleStep ops rndMode repos =
      fun d f => if isStale rndMode repos f then removeFile ops f d else d := by
    funext d f; exact purgeStaleStep_eq ops rndMode repos d f
  rw [hfun, lookup_foldl_remove]
  by_cases hk : m ∈ d.keys
  · simp [hk, List.mem_filter]
  · have hn : d.lookup m = none := AList.lookup_eq_none.mpr (fun hmem => hk (AList.mem_keys.mp hmem))
    simp [hk, hn, List.mem_filter]
theorem repoFileName_eq (rndMode : Bool) (repo : QString) :
    repoFileName rndMode repo =
      "ssu_".toList ++ (repo ++ '_' ::
        (if rndMode then "rnd.repo".toList else "release.repo".toList)) := by
  cases rndMode <;> simp [repoFileName]

theorem matchesSsuFilter_repoFileName (rndMode : Bool) (repo : QString) :
    matchesSsuFilter (repoFileName rndMode repo) = true := by
  rw [matchesSsuFilter_iff, repoFileName_eq]
  exact ⟨_, rfl⟩

theorem repoFileName_injective (rndMode : Bool) (a b : QString)
    (h : repoFileName rndMode a = repoFileName rndMode b) : a = b := by
  rw [repoFileName_eq, repoFileName_eq] at h
  have h1 := List.append_cancel_left h
  have h2 : a ++ ('_' :: (if rndMode then "rnd.repo".toList else "release.repo".toList)) =
      b ++ ('_' :: (if rndMode then "rnd.repo".toList else "release.repo".toList)) := h1
  exact List.append_cancel_right h2

/-- A listed managed file that the stale scan keeps carries the canonical name of a
desired repository. -/
theorem canonical_of_not_isStale (rndMode : Bool) (repos : List QString) (m : QString)
    (hm : matchesSsuFilter m = true) (hs : isStale rndMode repos m = false) :
    ∃ n, n ∈ repos ∧ m = repoFileName rndMode n := by
  obtain ⟨rest, rfl⟩ := (matchesSsuFilter_iff m).mp hm
  unfold isStale at hs
  rw [split_ssu] at hs
  have hj := joinWith_split '_' rest
  by_cases hl : ("ssu".toList :: split '_' rest).length = 3
  · simp only [hl, if_true] at hs
    match hsp : split '_' rest, hl with
    | [p1, p2], _ =>
      rw [hsp] at hs hj
      simp only [List.getD_cons_succ, List.getD_cons_zero, Bool.or_eq_false_iff,
        Bool.not_eq_false_eq_eq_true, bne_eq_false_iff_eq] at hs
      refine ⟨p1, ?_, ?_⟩
      · simpa using hs.1
      · rw [repoFileName_eq, ← hs.2, ← hj]
        simp [joinWith]
  · rw [if_neg hl] at hs
    exact absurd hs (by simp)

theorem lookup_writeRepos_other (ops : FileOps) (rndMode : Bool) (m : QString)
    (repos : List QString) (d : Dir)
    (h : ∀ n, n ∈ repos → m ≠ repoFileName rndMode n) :
    (writeRepos ops rndMode repos d).lookup m = d.lookup m := by
  unfold writeRepos
  induction repos generalizing d with
  | nil => rfl
  | cons a rest ih =>
    rw [List.foldl_cons, ih _ (fun n hn => h n (List.mem_cons_of_mem _ hn)), lookup_writeFile]
    have : ¬ (m = repoFileName rndMode a ∧ ops.canOpen (repoFileName rndMode a) = true) :=
      fun e => h a (List.mem_cons_self _ _) e.1
    rw [if_neg this]

theorem lookup_writeRepos_mem (ops : FileOps) (rndMode : Bool) (n : QString)
    (repos : List QString) (d : Dir) (hn : n ∈ repos)
    (hopen : ops.canOpen (repoFileName rndMode n) = true) :
    (writeRepos ops rndMode repos d).lookup (repoFileName rndMode n) =
      some (repoFileContent rndMode n) := by
  induction repos generalizing d with
  | nil => exact absurd hn (List.not_mem_nil _)
  | cons a rest ih =>
    by_cases hr : n ∈ rest
    · exact ih _ hr
    · have ha : n = a := by
        rcases List.mem_cons.mp hn with e | e
        · exact e
        · exact absurd e hr
      subst ha
      have hother : ∀ k, k ∈ rest → repoFileName rndMode n ≠ repoFileName rndMode k := by
        intro k hk e
        exact hr (repoFileName_injective rndMode n k e ▸ hk)
      show (writeRepos ops rndMode rest (writeFile ops _ _ d)).lookup _ = _
      rw [lookup_writeRepos_other ops rndMode _ rest _ hother, lookup_writeFile]
      simp [hopen]

/-- After an enabled run in which the file of a desired repository can be opened, that file
holds the generated text. -/
theorem lookup_update_mem (ops : FileOps) (flags : DeviceMode) (deviceInfo : SsuDeviceInfo)
    (deviceMode : Int) (dir : Dir) (n : QString)
    (hen : hasFlag deviceMode flags.DisableRepoManager = false)
    (hn : n ∈ deviceInfo.repos (hasFlag deviceMode flags.RndMode))
    (hopen : ops.canOpen (repoFileName (hasFlag deviceMode flags.RndMode) n) = true) :
    (update ops flags deviceInfo deviceMode dir).lookup
        (repoFileName (hasFlag deviceMode flags.RndMode) n) =
      some (repoFileContent (hasFlag deviceMode flags.RndMode) n) := by
  unfold update
  simp only [hen, Bool.false_eq_true, if_false]
  exact lookup_writeRepos_mem ops _ n _ _ hn hopen

/-- After an enabled run without failures, a name that is not the canonical name of a desired
repository is absent when it is managed or when the strict purge ran, and untouched
otherwise. -/
theorem lookup_update_other (flags : DeviceMode) (deviceInfo : SsuDeviceInfo)
    (deviceMode : Int) (dir : Dir) (m : QString)
    (hen : hasFlag deviceMode flags.DisableRepoManager = false)
    (hm : ∀ n, n ∈ deviceInfo.repos (hasFlag deviceMode flags.RndMode) →
      m ≠ repoFileName (hasFlag deviceMode flags.RndMode) n) :
    (update FileOps.noFailure flags deviceInfo deviceMode dir).lookup m =
      if matchesSsuFilter m = true then none
      else if hasFlag deviceMode flags.LenientMode = false ∧
          (deviceInfo.repos (hasFlag deviceMode flags.RndMode)).isEmpty = false then none
      else dir.lookup m := by
  unfold update
  simp only [hen, Bool.false_eq_true, if_false]
  rw [lookup_writeRepos_other _ _ _ _ _ hm, lookup_purgeStale]
  by_cases hf : matchesSsuFilter m = true
  · have hst : isStale (hasFlag deviceMode flags.RndMode)
        (deviceInfo.repos (hasFlag deviceMode flags.RndMode)) m = true := by
      by_contra hc
      obtain ⟨n, hn, e⟩ := canonical_of_not_isStale _ _ m hf (by simpa using hc)
      exact hm n hn e
    simp [hf, hst, FileOps.noFailure]
  · by_cases hstrict : hasFlag deviceMode flags.LenientMode = false ∧
        (deviceInfo.repos (hasFlag deviceMode flags.RndMode)).isEmpty = false
    · simp [hf, hstrict, lookup_purgeUnmanaged, FileOps.noFailure]
    · rw [if_neg (fun h => hf h.1), if_neg hf, if_neg hstrict]
      have : (!hasFlag deviceMode flags.LenientMode &&
          !(deviceInfo.repos (hasFlag deviceMode flags.RndMode)).isEmpty) = false := by
        cases h1 : hasFlag deviceMode flags.LenientMode <;>
        cases h2 : (deviceInfo.repos (hasFlag deviceMode flags.RndMode)).isEmpty <;>
        simp_all
      rw [this]
      simp

theorem repoFileName_release_ne_rnd (a b : QString) :
    repoFileName false a ≠ repoFileName true b := by
  intro h
  rw [repoFileName_eq, repoFileName_eq] at h
  have h1 := congrArg List.reverse (List.append_cancel_left h)
  simp at h1

theorem split_append_sep (sep : Char) (n rest : QString) (h : sep ∉ n) :
    split sep (n ++ sep :: rest) = n :: split sep rest := by
  induction n with
  | nil => simp [split]
  | cons c cs ih =>
    have hc : c ≠ sep := fun e => h (e ▸ List.mem_cons_self _ _)
    have hcs : sep ∉ cs := fun e => h (List.mem_cons_of_mem _ e)
    rw [List.cons_append, split, if_neg hc, ih hcs]

/-- The canonical file name of a repository without underscore has three parts. -/
theorem split_repoFileName (rndMode : Bool) (n : QString) (h : '_' ∉ n) :
    (split '_' (repoFileName rndMode n)).length = 3 := by
  have h1 : split '_' "rnd.repo".toList = ["rnd.repo".toList] := by decide
  have h2 : split '_' "release.repo".toList = ["release.repo".toList] := by decide
  rw [repoFileName_eq, split_ssu, split_append_sep '_' n _ h]
  cases rndMode
  · rw [if_neg Bool.false_ne_true, h2]; rfl
  · rw [if_pos rfl, h1]; rfl

/-- A run leaves an unmanaged name alone unless the strict purge runs. -/
theorem lookup_update_unmanaged (ops : FileOps) (flags : DeviceMode)
    (deviceInfo : SsuDeviceInfo) (deviceMode : Int) (dir : Dir) (m : QString)
    (hm : matchesSsuFilter m = false)
    (hguard : (deviceInfo.repos (hasFlag deviceMode flags.RndMode)).isEmpty = true ∨
      hasFlag deviceMode flags.LenientMode = true) :
    (update ops flags deviceInfo deviceMode dir).lookup m = dir.lookup m := by
  unfold update
  cases hen : hasFlag deviceMode flags.DisableRepoManager with
  | true => simp
  | false =>
    simp only [Bool.false_eq_true, if_false]
    have hother : ∀ n, n ∈ deviceInfo.repos (hasFlag deviceMode flags.RndMode) →
        m ≠ repoFileName (hasFlag deviceMode flags.RndMode) n := by
      intro n _ e
      have := matchesSsuFilter_repoFileName (hasFlag deviceMode flags.RndMode) n
      rw [← e, hm] at this
      exact Bool.false_ne_true this
    rw [lookup_writeRepos_other _ _ _ _ _ hother, lookup_purgeStale]
    have hskip : (!hasFlag deviceMode flags.LenientMode &&
        !(deviceInfo.repos (hasFlag deviceMode flags.RndMode)).isEmpty) = false := by
      rcases hguard with h | h <;> simp [h]
    simp [hm, hskip]

theorem split_append_cons (sep : Char) (a b : QString) :
    split sep (a ++ sep :: b) = split sep a ++ split sep b := by
  induction a with
  | nil => simp [split]
  | cons c cs ih =>
    rw [List.cons_append, split, split, ih]
    by_cases hc : c = sep
    · simp [hc]
    · rw [if_neg hc, if_neg hc]
      cases h : split sep cs with
      | nil => exact absurd h (split_ne_nil sep cs)
      | cons p ps => rfl

theorem length_split_pos (sep : Char) (s : QString) : 0 < (split sep s).length :=
  List.length_pos.mpr (split_ne_nil sep s)

/-- A canonical file name has at least three parts. -/
theorem three_le_length_split_repoFileName (rndMode : Bool) (n : QString) :
    3 ≤ (split '_' (repoFileName rndMode n)).length := by
  rw [repoFileName_eq, split_ssu, split_append_cons, List.length_cons, List.length_append]
  have h1 := length_split_pos '_' n
  have h2 := length_split_pos '_'
    (if rndMode = true then "rnd.repo".toList else "release.repo".toList)
  omega

/-! ## Properties of update -/

/-- C1: update is idempotent. Without file-operation failures, for every directory, every
deviceMode and every device-facts list, a second run leaves under every file name exactly
what the first run left there (same names, same contents). -/
theorem update_idempotent (flags : DeviceMode) (deviceInfo : SsuDeviceInfo)
    (deviceMode : Int) (dir : Dir) (fileName : QString) :
    (update FileOps.noFailure flags deviceInfo deviceMode
        (update FileOps.noFailure flags deviceInfo deviceMode dir)).lookup fileName =
      (update FileOps.noFailure flags deviceInfo deviceMode dir).lookup fileName := by
  cases hen : hasFlag deviceMode flags.DisableRepoManager with
  | true => simp [update, hen]
  | false =>
    by_cases hc : ∃ n, n ∈ deviceInfo.repos (hasFlag deviceMode flags.RndMode) ∧
        fileName = repoFileName (hasFlag deviceMode flags.RndMode) n
    · obtain ⟨n, hn, rfl⟩ := hc
      rw [lookup_update_mem _ _ _ _ _ n hen hn rfl, lookup_update_mem _ _ _ _ _ n hen hn rfl]
    · have hm : ∀ n, n ∈ deviceInfo.repos (hasFlag deviceMode flags.RndMode) →
          fileName ≠ repoFileName (hasFlag deviceMode flags.RndMode) n :=
        fun n hn e => hc ⟨n, hn, e⟩
      rw [lookup_update_other _ _ _ _ _ hen hm, lookup_update_other _ _ _ _ _ hen hm]
      by_cases hf : matchesSsuFilter fileName = true
      · simp [hf]
      · by_cases hs : hasFlag deviceMode flags.LenientMode = false ∧
            (deviceInfo.repos (hasFlag deviceMode flags.RndMode)).isEmpty = false
        · rw [if_neg hf, if_pos hs, if_neg hf, if_pos hs]
        · rw [if_neg hf, if_neg hs, if_neg hf, if_neg hs]

/-- C2: after a run with repository management not disabled (no file-operation failure), the
entries whose name starts with ssu_ are exactly the files ssu_n_v.repo for n in the desired
list, v being rnd when the RndMode bit is set and release otherwise; names n containing an
underscore are included. -/
theorem update_managed_entries (flags : DeviceMode) (deviceInfo : SsuDeviceInfo)
    (deviceMode : Int) (dir : Dir) (fileName : QString)
    (hen : hasFlag deviceMode flags.DisableRepoManager = false) :
    (matchesSsuFilter fileName = true ∧
        fileName ∈ (update FileOps.noFailure flags deviceInfo deviceMode dir).keys) ↔
      ∃ n, n ∈ deviceInfo.repos (hasFlag deviceMode flags.RndMode) ∧
        fileName = "ssu_".toList ++ n ++ "_".toList ++
          (if hasFlag deviceMode flags.RndMode then "rnd".toList else "release".toList) ++
          ".repo".toList := by
  constructor
  · rintro ⟨hf, hk⟩
    by_contra hc
    have hm : ∀ n, n ∈ deviceInfo.repos (hasFlag deviceMode flags.RndMode) →
        fileName ≠ repoFileName (hasFlag deviceMode flags.RndMode) n :=
      fun n hn e => hc ⟨n, hn, e⟩
    have hl := lookup_update_other flags deviceInfo deviceMode dir fileName hen hm
    rw [if_pos hf] at hl
    exact (AList.lookup_eq_none.mp hl) (AList.mem_keys.mpr hk)
  · rintro ⟨n, hn, e⟩
    have e2 : fileName = repoFileName (hasFlag deviceMode flags.RndMode) n := e
    subst e2
    refine ⟨matchesSsuFilter_repoFileName _ n, ?_⟩
    have hl := lookup_update_mem FileOps.noFailure flags deviceInfo deviceMode dir n hen hn rfl
    have hs : ((update FileOps.noFailure flags deviceInfo deviceMode dir).lookup
        (repoFileName (hasFlag deviceMode flags.RndMode) n)).isSome = true := by
      rw [hl]; rfl
    exact AList.mem_keys.mp (AList.lookup_isSome.mp hs)

/-- Witness of C2 in release mode, for the desired name a_b, over a directory holding a
malformed and a stale managed file. -/
theorem update_managed_entries_witness :
    hasFlag 0 DeviceMode.std.DisableRepoManager = false ∧
    ((matchesSsuFilter "ssu_a_b_release.repo".toList = true ∧
        "ssu_a_b_release.repo".toList ∈
          (update FileOps.noFailure DeviceMode.std exampleDeviceInfo 0 exampleDir).keys) ↔
      ∃ n, n ∈ exampleDeviceInfo.repos (hasFlag 0 DeviceMode.std.RndMode) ∧
        "ssu_a_b_release.repo".toList = "ssu_".toList ++ n ++ "_".toList ++
          (if hasFlag 0 DeviceMode.std.RndMode then "rnd".toList else "release".toList) ++
          ".repo".toList) :=
  ⟨by decide,
    update_managed_entries DeviceMode.std exampleDeviceInfo 0 exampleDir
      "ssu_a_b_release.repo".toList (by decide)⟩

/-- C3, counterexample: foo is desired in both modes, the first run is a release run and
creates ssu_foo_release.repo, the second run has the RndMode bit set (deviceMode 3, which
also carries DisableRepoManager): afterwards the release file is still there and the rnd
file is missing. -/
theorem mode_switch_counterexample :
    "foo".toList ∈ exampleDeviceInfo.repos false ∧
    "foo".toList ∈ exampleDeviceInfo.repos true ∧
    hasFlag 0 DeviceMode.std.RndMode = false ∧
    hasFlag 3 DeviceMode.std.RndMode = true ∧
    (update FileOps.noFailure DeviceMode.std exampleDeviceInfo 0 ∅).lookup
      "ssu_foo_release.repo".toList ≠ none ∧
    (update FileOps.noFailure DeviceMode.std exampleDeviceInfo 3
      (update FileOps.noFailure DeviceMode.std exampleDeviceInfo 0 ∅)).lookup
        "ssu_foo_release.repo".toList ≠ none ∧
    (update FileOps.noFailure DeviceMode.std exampleDeviceInfo 3
      (update FileOps.noFailure DeviceMode.std exampleDeviceInfo 0 ∅)).lookup
        "ssu_foo_rnd.repo".toList = none := by
  decide

/-- C3, amended: for foo desired in both modes, when update runs in release mode with
repository management enabled, ssu_foo_release.repo exists; when update then runs with the
RndMode bit set and the DisableRepoManager bit clear (no file-operation failure),
ssu_foo_release.repo is absent and ssu_foo_rnd.repo is present. -/
theorem update_mode_switch (flags : DeviceMode) (deviceInfo : SsuDeviceInfo)
    (mode1 mode2 : Int) (dir : Dir) (foo : QString)
    (hrel : hasFlag mode1 flags.RndMode = false)
    (hen1 : hasFlag mode1 flags.DisableRepoManager = false)
    (hrnd : hasFlag mode2 flags.RndMode = true)
    (hen2 : hasFlag mode2 flags.DisableRepoManager = false)
    (hfoo1 : foo ∈ deviceInfo.repos false) (hfoo2 : foo ∈ deviceInfo.repos true) :
    (update FileOps.noFailure flags deviceInfo mode1 dir).lookup
        ("ssu_".toList ++ foo ++ "_release.repo".toList) =
      some (repoFileContent false foo) ∧
    (update FileOps.noFailure flags deviceInfo mode2
        (update FileOps.noFailure flags deviceInfo mode1 dir)).lookup
          ("ssu_".toList ++ foo ++ "_release.repo".toList) = none ∧
    (update FileOps.noFailure flags deviceInfo mode2
        (update FileOps.noFailure flags deviceInfo mode1 dir)).lookup
          ("ssu_".toList ++ foo ++ "_rnd.repo".toList) =
      some (repoFileContent true foo) := by
  have e1 : "ssu_".toList ++ foo ++ "_release.repo".toList = repoFileName false foo := by
    simp [repoFileName]
  have e2 : "ssu_".toList ++ foo ++ "_rnd.repo".toList = repoFileName true foo := by
    simp [repoFileName]
  rw [e1, e2]
  refine ⟨?_, ?_, ?_⟩
  · have h := lookup_update_mem FileOps.noFailure flags deviceInfo mode1 dir foo hen1
      (by rw [hrel]; exact hfoo1) rfl
    rw [hrel] at h
    exact h
  · have hm : ∀ n, n ∈ deviceInfo.repos (hasFlag mode2 flags.RndMode) →
        repoFileName false foo ≠ repoFileName (hasFlag mode2 flags.RndMode) n := by
      intro n _
      rw [hrnd]
      exact repoFileName_release_ne_rnd foo n
    rw [lookup_update_other _ _ _ _ _ hen2 hm, if_pos (matchesSsuFilter_repoFileName _ _)]
  · have h := lookup_update_mem FileOps.noFailure flags deviceInfo mode2
      (update FileOps.noFailure flags deviceInfo mode1 dir) foo hen2
      (by rw [hrnd]; exact hfoo2) rfl
    rw [hrnd] at h
    exact h

/-- Witness of C3 amended: release run (deviceMode 0) then rnd run (deviceMode 2). -/
theorem update_mode_switch_witness :
    hasFlag 0 DeviceMode.std.RndMode = false ∧
    hasFlag 0 DeviceMode.std.DisableRepoManager = false ∧
    hasFlag 2 DeviceMode.std.RndMode = true ∧
    hasFlag 2 DeviceMode.std.DisableRepoManager = false ∧
    "foo".toList ∈ exampleDeviceInfo.repos false ∧
    "foo".toList ∈ exampleDeviceInfo.repos true ∧
    (update FileOps.noFailure DeviceMode.std exampleDeviceInfo 0 exampleDir).lookup
        ("ssu_".toList ++ "foo".toList ++ "_release.repo".toList) =
      some (repoFileContent false "foo".toList) ∧
    (update FileOps.noFailure DeviceMode.std exampleDeviceInfo 2
        (update FileOps.noFailure DeviceMode.std exampleDeviceInfo 0 exampleDir)).lookup
          ("ssu_".toList ++ "foo".toList ++ "_release.repo".toList) = none ∧
    (update FileOps.noFailure DeviceMode.std exampleDeviceInfo 2
        (update FileOps.noFailure DeviceMode.std exampleDeviceInfo 0 exampleDir)).lookup
          ("ssu_".toList ++ "foo".toList ++ "_rnd.repo".toList) =
      some (repoFileContent true "foo".toList) :=
  ⟨by decide, by decide, by decide, by decide, by decide, by decide,
    update_mode_switch DeviceMode.std exampleDeviceInfo 0 2 exampleDir "foo".toList
      (by decide) (by decide) (by decide) (by decide) (by decide) (by decide)⟩

/-- C4: strict-mode safety guard. For every directory, every deviceMode and every pattern of
file-operation failures, when the desired list is empty or the LenientMode bit is set, a
name that does not start with ssu_ has after update exactly the entry it had before (present
with the same content, or absent as before): the purge of unmanaged entries does not run. -/
theorem update_keeps_unmanaged (ops : FileOps) (flags : DeviceMode)
    (deviceInfo : SsuDeviceInfo) (deviceMode : Int) (dir : Dir) (fileName : QString)
    (hguard : (deviceInfo.repos (hasFlag deviceMode flags.RndMode)).isEmpty = true ∨
      hasFlag deviceMode flags.LenientMode = true)
    (hname : matchesSsuFilter fileName = false) :
    (update ops flags deviceInfo deviceMode dir).lookup fileName = dir.lookup fileName :=
  lookup_update_unmanaged ops flags deviceInfo deviceMode dir fileName hname hguard

/-- Witness of C4: strict mode, empty desired list, the unmanaged file other.repo. -/
theorem update_keeps_unmanaged_witness :
    ((emptyDeviceInfo.repos (hasFlag 0 DeviceMode.std.RndMode)).isEmpty = true ∨
      hasFlag 0 DeviceMode.std.LenientMode = true) ∧
    matchesSsuFilter "other.repo".toList = false ∧
    (update FileOps.noFailure DeviceMode.std emptyDeviceInfo 0 exampleDir).lookup
      "other.repo".toList = exampleDir.lookup "other.repo".toList :=
  ⟨by decide, by decide,
    update_keeps_unmanaged FileOps.noFailure DeviceMode.std emptyDeviceInfo 0 exampleDir
      "other.repo".toList (by decide) (by decide)⟩

/-- C5: strict-mode purge. With repository management enabled, the LenientMode bit clear and
a non-empty desired list (no file-operation failure), no name that does not start with ssu_
remains after update, and the names present are exactly the canonical ssu_n_variant.repo for
n in the desired list. -/
theorem update_strict_purge (flags : DeviceMode) (deviceInfo : SsuDeviceInfo)
    (deviceMode : Int) (dir : Dir) (fileName : QString)
    (hen : hasFlag deviceMode flags.DisableRepoManager = false)
    (hstrict : hasFlag deviceMode flags.LenientMode = false)
    (hne : (deviceInfo.repos (hasFlag deviceMode flags.RndMode)).isEmpty = false) :
    (matchesSsuFilter fileName = false →
      (update FileOps.noFailure flags deviceInfo deviceMode dir).lookup fileName = none) ∧
    (fileName ∈ (update FileOps.noFailure flags deviceInfo deviceMode dir).keys ↔
      ∃ n, n ∈ deviceInfo.repos (hasFlag deviceMode flags.RndMode) ∧
        fileName = repoFileName (hasFlag deviceMode flags.RndMode) n) := by
  have habs : (∀ n, n ∈ deviceInfo.repos (hasFlag deviceMode flags.RndMode) →
      fileName ≠ repoFileName (hasFlag deviceMode flags.RndMode) n) →
      (update FileOps.noFailure flags deviceInfo deviceMode dir).lookup fileName = none := by
    intro hm
    rw [lookup_update_other _ _ _ _ _ hen hm]
    by_cases hf : matchesSsuFilter fileName = true
    · rw [if_pos hf]
    · rw [if_neg hf, if_pos ⟨hstrict, hne⟩]
  constructor
  · intro hf
    apply habs
    intro n _ e
    have := matchesSsuFilter_repoFileName (hasFlag deviceMode flags.RndMode) n
    rw [← e, hf] at this
    exact Bool.false_ne_true this
  · constructor
    · intro hk
      by_contra hc
      exact (AList.lookup_eq_none.mp (habs (fun n hn e => hc ⟨n, hn, e⟩)))
        (AList.mem_keys.mpr hk)
    · rintro ⟨n, hn, rfl⟩
      have hl := lookup_update_mem FileOps.noFailure flags deviceInfo deviceMode dir n hen hn rfl
      have hs : ((update FileOps.noFailure flags deviceInfo deviceMode dir).lookup
          (repoFileName (hasFlag deviceMode flags.RndMode) n)).isSome = true := by
        rw [hl]; rfl
      exact AList.mem_keys.mp (AList.lookup_isSome.mp hs)

/-- Witness of C5: strict release mode, desired list foo and a_b, the file other.repo. -/
theorem update_strict_purge_witness :
    hasFlag 0 DeviceMode.std.DisableRepoManager = false ∧
    hasFlag 0 DeviceMode.std.LenientMode = false ∧
    (exampleDeviceInfo.repos (hasFlag 0 DeviceMode.std.RndMode)).isEmpty = false ∧
    (matchesSsuFilter "other.repo".toList = false →
      (update FileOps.noFailure DeviceMode.std exampleDeviceInfo 0 exampleDir).lookup
        "other.repo".toList = none) ∧
    ("other.repo".toList ∈
        (update FileOps.noFailure DeviceMode.std exampleDeviceInfo 0 exampleDir).keys ↔
      ∃ n, n ∈ exampleDeviceInfo.repos (hasFlag 0 DeviceMode.std.RndMode) ∧
        "other.repo".toList = repoFileName (hasFlag 0 DeviceMode.std.RndMode) n) :=
  ⟨by decide, by decide, by decide,
    update_strict_purge DeviceMode.std exampleDeviceInfo 0 exampleDir "other.repo".toList
      (by decide) (by decide) (by decide)⟩

/-- C6, counterexample: repository management is enabled (deviceMode 0), the desired list
holds a_b, and the pre-existing file ssu_a_b_release.repo starts with ssu_ and splits into
4 parts; after update the file is present (written anew). -/
theorem corrupt_name_counterexample :
    hasFlag 0 DeviceMode.std.DisableRepoManager = false ∧
    exampleDir.lookup "ssu_a_b_release.repo".toList = some "old".toList ∧
    matchesSsuFilter "ssu_a_b_release.repo".toList = true ∧
    (split '_' "ssu_a_b_release.repo".toList).length = 4 ∧
    (update FileOps.noFailure DeviceMode.std exampleDeviceInfo 0 exampleDir).lookup
      "ssu_a_b_release.repo".toList = some (repoFileContent false "a_b".toList) := by
  decide

/-- C6, amended: with repository management enabled (no file-operation failure), a name
that starts with ssu_ and does not split on the underscore into exactly 3 parts is present
after update only as the canonical file of a desired repository whose own name contains an
underscore; in every other case (such as ssu_bad.repo, or when no desired name contains an
underscore) it is absent. -/
theorem update_removes_corrupt_names (flags : DeviceMode) (deviceInfo : SsuDeviceInfo)
    (deviceMode : Int) (dir : Dir) (fileName : QString)
    (hen : hasFlag deviceMode flags.DisableRepoManager = false)
    (hname : matchesSsuFilter fileName = true)
    (hparts : (split '_' fileName).length ≠ 3) :
    (fileName ∈ (update FileOps.noFailure flags deviceInfo deviceMode dir).keys ↔
      ∃ n, n ∈ deviceInfo.repos (hasFlag deviceMode flags.RndMode) ∧ '_' ∈ n ∧
        fileName = repoFileName (hasFlag deviceMode flags.RndMode) n) ∧
    ((split '_' fileName).length < 3 →
      fileName ∉ (update FileOps.noFailure flags deviceInfo deviceMode dir).keys) := by
  have hiff : fileName ∈ (update FileOps.noFailure flags deviceInfo deviceMode dir).keys ↔
      ∃ n, n ∈ deviceInfo.repos (hasFlag deviceMode flags.RndMode) ∧ '_' ∈ n ∧
        fileName = repoFileName (hasFlag deviceMode flags.RndMode) n := by
    constructor
    · intro hk
      by_contra hc
      have hm : ∀ n, n ∈ deviceInfo.repos (hasFlag deviceMode flags.RndMode) →
          fileName ≠ repoFileName (hasFlag deviceMode flags.RndMode) n := by
        intro n hn e
        by_cases hu : '_' ∈ n
        · exact hc ⟨n, hn, hu, e⟩
        · exact hparts (e ▸ split_repoFileName _ n hu)
      have hl := lookup_update_other flags deviceInfo deviceMode dir fileName hen hm
      rw [if_pos hname] at hl
      exact (AList.lookup_eq_none.mp hl) (AList.mem_keys.mpr hk)
    · rintro ⟨n, hn, _, rfl⟩
      have hl := lookup_update_mem FileOps.noFailure flags deviceInfo deviceMode dir n hen hn rfl
      have hs : ((update FileOps.noFailure flags deviceInfo deviceMode dir).lookup
          (repoFileName (hasFlag deviceMode flags.RndMode) n)).isSome = true := by
        rw [hl]; rfl
      exact AList.mem_keys.mp (AList.lookup_isSome.mp hs)
  refine ⟨hiff, ?_⟩
  intro hlt hk
  obtain ⟨n, _, _, e⟩ := hiff.mp hk
  have h3 := three_le_length_split_repoFileName (hasFlag deviceMode flags.RndMode) n
  rw [e] at hlt
  omega

/-- Witness of C6 amended: the two-part name ssu_bad.repo of the example directory. -/
theorem update_removes_corrupt_names_witness :
    hasFlag 0 DeviceMode.std.DisableRepoManager = false ∧
    matchesSsuFilter "ssu_bad.repo".toList = true ∧
    (split '_' "ssu_bad.repo".toList).length ≠ 3 ∧
    ("ssu_bad.repo".toList ∈
        (update FileOps.noFailure DeviceMode.std exampleDeviceInfo 0 exampleDir).keys ↔
      ∃ n, n ∈ exampleDeviceInfo.repos (hasFlag 0 DeviceMode.std.RndMode) ∧ '_' ∈ n ∧
        "ssu_bad.repo".toList = repoFileName (hasFlag 0 DeviceMode.std.RndMode) n) ∧
    ((split '_' "ssu_bad.repo".toList).length < 3 →
      "ssu_bad.repo".toList ∉
        (update FileOps.noFailure DeviceMode.std exampleDeviceInfo 0 exampleDir).keys) :=
  ⟨by decide, by decide, by decide,
    update_removes_corrupt_names DeviceMode.std exampleDeviceInfo 0 exampleDir
      "ssu_bad.repo".toList (by decide) (by decide) (by decide)⟩

/-- C7: content of a written file. With repository management enabled and the file of the
desired name n opening successfully, after update the file ssu_n_variant.repo holds exactly
the lines [n], name=n, failovermethod=priority, type=rpm-md, gpgcheck=0, enabled=1 and the
baseurl line of the mode, whatever the directory held before. -/
theorem update_file_content (ops : FileOps) (flags : DeviceMode) (deviceInfo : SsuDeviceInfo)
    (deviceMode : Int) (dir : Dir) (n : QString)
    (hen : hasFlag deviceMode flags.DisableRepoManager = false)
    (hn : n ∈ deviceInfo.repos (hasFlag deviceMode flags.RndMode))
    (hopen : ops.canOpen (repoFileName (hasFlag deviceMode flags.RndMode) n) = true) :
    (update ops flags deviceInfo deviceMode dir).lookup
        ("ssu_".toList ++ n ++ "_".toList ++
          (if hasFlag deviceMode flags.RndMode then "rnd".toList else "release".toList) ++
          ".repo".toList) =
      some (unlines
        ["[".toList ++ n ++ "]".toList,
         "name=".toList ++ n,
         "failovermethod=priority".toList,
         "type=rpm-md".toList,
         "gpgcheck=0".toList,
         "enabled=1".toList,
         if hasFlag deviceMode flags.RndMode then "baseurl=plugin:ssu?rnd&repo=".toList ++ n
         else "baseurl=plugin:ssu?repo=".toList ++ n]) := by
  have h := lookup_update_mem ops flags deviceInfo deviceMode dir n hen hn hopen
  have hc : repoFileContent (hasFlag deviceMode flags.RndMode) n =
      unlines
        ["[".toList ++ n ++ "]".toList,
         "name=".toList ++ n,
         "failovermethod=priority".toList,
         "type=rpm-md".toList,
         "gpgcheck=0".toList,
         "enabled=1".toList,
         if hasFlag deviceMode flags.RndMode then "baseurl=plugin:ssu?rnd&repo=".toList ++ n
         else "baseurl=plugin:ssu?repo=".toList ++ n] := by
    cases hasFlag deviceMode flags.RndMode <;> simp [repoFileContent, unlines, endl]
  rw [← hc]
  exact h

/-- Witness of C7: rnd mode, the desired name foo, over a directory with other content. -/
theorem update_file_content_witness :
    hasFlag 2 DeviceMode.std.DisableRepoManager = false ∧
    "foo".toList ∈ exampleDeviceInfo.repos (hasFlag 2 DeviceMode.std.RndMode) ∧
    (update FileOps.noFailure DeviceMode.std exampleDeviceInfo 2 exampleDir).lookup
        ("ssu_".toList ++ "foo".toList ++ "_".toList ++
          (if hasFlag 2 DeviceMode.std.RndMode then "rnd".toList else "release".toList) ++
          ".repo".toList) =
      some (unlines
        ["[".toList ++ "foo".toList ++ "]".toList,
         "name=".toList ++ "foo".toList,
         "failovermethod=priority".toList,
         "type=rpm-md".toList,
         "gpgcheck=0".toList,
         "enabled=1".toList,
         if hasFlag 2 DeviceMode.std.RndMode then
           "baseurl=plugin:ssu?rnd&repo=".toList ++ "foo".toList
         else "baseurl=plugin:ssu?repo=".toList ++ "foo".toList]) :=
  ⟨by decide, by decide,
    update_file_content FileOps.noFailure DeviceMode.std exampleDeviceInfo 2 exampleDir
      "foo".toList (by decide) (by decide) rfl⟩

/-- C8: disabled repository management is a no-op. When the DisableRepoManager bit is set,
update leaves the directory exactly as it was, whatever the other bits, the desired list
and the behaviour of the file operations. -/
theorem update_disabled (ops : FileOps) (flags : DeviceMode) (deviceInfo : SsuDeviceInfo)
    (deviceMode : Int) (dir : Dir)
    (hdis : hasFlag deviceMode flags.DisableRepoManager = true) :
    update ops flags deviceInfo deviceMode dir = dir := by
  unfold update
  rw [if_pos hdis]

/-- Witness of C8: deviceMode 3 (DisableRepoManager and RndMode), strict. -/
theorem update_disabled_witness :
    hasFlag 3 DeviceMode.std.DisableRepoManager = true ∧
    update FileOps.noFailure DeviceMode.std exampleDeviceInfo 3 exampleDir = exampleDir :=
  ⟨by decide, update_disabled FileOps.noFailure DeviceMode.std exampleDeviceInfo 3 exampleDir
    (by decide)⟩

/-! ## Properties of url -/

theorem lookup_foldl_insert (k : QString) (l : List (Sigma (fun _ : QString => QString)))
    (hl : l.NodupKeys) (p : QHash) :
    (l.foldl (fun p e => p.insert e.1 e.2) p).lookup k =
      match l.dlookup k with
      | some v => some v
      | none => p.lookup k := by
  induction l generalizing p with
  | nil => simp
  | cons e rest ih =>
    obtain ⟨a, b⟩ := e
    rw [List.foldl_cons, ih (List.nodupKeys_cons.mp hl).2]
    by_cases hk : a = k
    · subst hk
      have hnot : a ∉ rest.keys := (List.nodupKeys_cons.mp hl).1
      rw [List.dlookup_cons_eq, List.dlookup_eq_none.mpr hnot]
      simp
    · rw [List.dlookup_cons_ne _ _ (Ne.symm hk)]
      cases rest.dlookup k with
      | some v => rfl
      | none => simp [AList.lookup_insert_ne (Ne.symm hk)]

theorem lookup_overrideStep (parametersOverride p : QHash) (k v : QString)
    (h : parametersOverride.lookup k = some v) :
    (overrideStep parametersOverride p).lookup k = some v := by
  unfold overrideStep
  rw [lookup_foldl_insert k _ parametersOverride.nodupKeys]
  have h2 : parametersOverride.entries.dlookup k = some v := h
  rw [h2]

/-- C9: override precedence in url. For every caller parameter map, settings, repository
configuration, expander and device facts, every key of parametersOverride carries its
override value in the finalized parameter map, the one url hands to resolveString. -/
theorem url_override_precedence (var : SsuVariables) (settings : SsuCoreConfig)
    (repoSettings : QSettings) (deviceInfo : SsuDeviceInfo) (repoName : QString)
    (rndRepo : Bool) (repoParameters parametersOverride : QHash) (k v : QString)
    (hk : parametersOverride.lookup k = some v) :
    url var settings repoSettings deviceInfo repoName rndRepo repoParameters
        parametersOverride =
      var.resolveString
        (urlTemplate settings repoSettings rndRepo
          (urlParameters var settings repoSettings deviceInfo repoName rndRepo repoParameters
            parametersOverride).1)
        (urlParameters var settings repoSettings deviceInfo repoName rndRepo repoParameters
          parametersOverride).2 ∧
    (urlParameters var settings repoSettings deviceInfo repoName rndRepo repoParameters
      parametersOverride).2.lookup k = some v := by
  refine ⟨rfl, ?_⟩
  unfold urlParameters
  exact lookup_overrideStep _ _ k v hk

/-- Witness of C9: callerParameters = (arch: x1), overrideParameters = (arch: x2); the
resolved arch is x2. -/
theorem url_override_precedence_witness :
    ((∅ : QHash).insert "arch".toList "x2".toList).lookup "arch".toList = some "x2".toList ∧
    (urlParameters exampleVariables exampleSettings exampleRepoSettings exampleDeviceInfo
      "foo".toList true ((∅ : QHash).insert "arch".toList "x1".toList)
      ((∅ : QHash).insert "arch".toList "x2".toList)).2.lookup "arch".toList =
        some "x2".toList :=
  ⟨by decide,
    (url_override_precedence exampleVariables exampleSettings exampleRepoSettings
      exampleDeviceInfo "foo".toList true ((∅ : QHash).insert "arch".toList "x1".toList)
      ((∅ : QHash).insert "arch".toList "x2".toList) "arch".toList "x2".toList
      (by decide)).2⟩

/-- C10, counterexample: the settings hold repository-urls/adaptation1, the device facts
rewrite the name adaptation1 to adaptation, and section all has the key adaptation: url
returns the expansion of the template of section all, not of the stored explicit URL, and
with a repository configuration without that key it returns the empty string. -/
theorem url_explicit_counterexample :
    exampleSettings.store.contains "repository-urls/adaptation1".toList = true ∧
    exampleVariables.resolveString
      (exampleSettings.store.value "repository-urls/adaptation1".toList).toString
      (urlParameters exampleVariables exampleSettings exampleRepoSettings adaptationDeviceInfo
        "adaptation1".toList false ∅ ∅).2 = "http://example/adaptation1".toList ∧
    url exampleVariables exampleSettings exampleRepoSettings adaptationDeviceInfo
      "adaptation1".toList false ∅ ∅ = "http://all/adaptation".toList ∧
    url exampleVariables exampleSettings ∅ adaptationDeviceInfo
      "adaptation1".toList false ∅ ∅ = [] := by
  decide

/-- C10, amended: let n be the name that adaptationVariables returns for repoName (repoName
itself when the device facts do not rewrite it). If the settings store contains
repository-urls/n, then url returns resolveString of exactly the stored string with the
finalized parameter map, for rnd and release alike, and the template is that stored string
whatever the repository configuration sections contain. -/
theorem url_explicit_shortcut (var : SsuVariables) (settings : SsuCoreConfig)
    (repoSettings : QSettings) (deviceInfo : SsuDeviceInfo) (repoName : QString)
    (rndRepo : Bool) (repoParameters parametersOverride : QHash)
    (hkey : settings.store.contains ("repository-urls/".toList ++
      (urlParameters var settings repoSettings deviceInfo repoName rndRepo repoParameters
        parametersOverride).1) = true) :
    url var settings repoSettings deviceInfo repoName rndRepo repoParameters
        parametersOverride =
      var.resolveString
        (settings.store.value ("repository-urls/".toList ++
          (urlParameters var settings repoSettings deviceInfo repoName rndRepo repoParameters
            parametersOverride).1)).toString
        (urlParameters var settings repoSettings deviceInfo repoName rndRepo repoParameters
          parametersOverride).2 ∧
    ∀ (otherSections : QSettings) (rnd : Bool),
      urlTemplate settings otherSections rnd
          (urlParameters var settings repoSettings deviceInfo repoName rndRepo repoParameters
            parametersOverride).1 =
        (settings.store.value ("repository-urls/".toList ++
          (urlParameters var settings repoSettings deviceInfo repoName rndRepo repoParameters
            parametersOverride).1)).toString := by
  constructor
  · unfold url urlTemplate
    simp only [hkey, if_true]
  · intro otherSections rnd
    unfold urlTemplate
    rw [if_pos hkey]

/-- Witness of C10 amended: repository-urls/foo is set, the name foo is not rewritten, and
section all has a key foo; url returns the stored explicit URL. -/
theorem url_explicit_shortcut_witness :
    exampleSettings.store.contains ("repository-urls/".toList ++
      (urlParameters exampleVariables exampleSettings exampleRepoSettings exampleDeviceInfo
        "foo".toList true ∅ ∅).1) = true ∧
    exampleRepoSettings.contains "all/foo".toList = true ∧
    url exampleVariables exampleSettings exampleRepoSettings exampleDeviceInfo
      "foo".toList true ∅ ∅ = "http://example/foo".toList :=
  ⟨by decide, by decide,
    (url_explicit_shortcut exampleVariables exampleSettings exampleRepoSettings
      exampleDeviceInfo "foo".toList true ∅ ∅ (by decide)).1.trans (by decide)⟩

/-! ## Lemmas on the registry lists -/

theorem mem_removeDuplicatesFrom (a : QString) (seen l : List QString) :
    a ∈ removeDuplicatesFrom seen l ↔ a ∈ l ∧ a ∉ seen := by
  induction l generalizing seen with
  | nil => simp [removeDuplicatesFrom]
  | cons x xs ih =>
    unfold removeDuplicatesFrom
    by_cases hx : x ∈ seen
    · rw [if_pos hx, ih]
      constructor
      · rintro ⟨h1, h2⟩; exact ⟨List.mem_cons_of_mem _ h1, h2⟩
      · rintro ⟨h1, h2⟩
        rcases List.mem_cons.mp h1 with e | e
        · exact absurd (e ▸ hx) h2
        · exact ⟨e, h2⟩
    · rw [if_neg hx, List.mem_cons, ih]
      constructor
      · rintro (e | ⟨h1, h2⟩)
        · exact ⟨e ▸ List.mem_cons_self _ _, e ▸ hx⟩
        · exact ⟨List.mem_cons_of_mem _ h1, fun h => h2 (List.mem_cons_of_mem _ h)⟩
      · rintro ⟨h1, h2⟩
        rcases List.mem_cons.mp h1 with e | e
        · exact Or.inl e
        · by_cases hax : a = x
          · exact Or.inl hax
          · refine Or.inr ⟨e, fun h => ?_⟩
            rcases List.mem_cons.mp h with e2 | e2
            · exact hax e2
            · exact h2 e2

theorem nodup_removeDuplicatesFrom (seen l : List QString) :
    (removeDuplicatesFrom seen l).Nodup := by
  induction l generalizing seen with
  | nil => simp [removeDuplicatesFrom]
  | cons x xs ih =>
    unfold removeDuplicatesFrom
    by_cases hx : x ∈ seen
    · rw [if_pos hx]; exact ih seen
    · rw [if_neg hx, List.nodup_cons]
      refine ⟨fun h => ?_, ih _⟩
      exact ((mem_removeDuplicatesFrom x (x :: seen) xs).mp h).2 (List.mem_cons_self _ _)

theorem sublist_removeDuplicatesFrom (seen l : List QString) :
    (removeDuplicatesFrom seen l).Sublist l := by
  induction l generalizing seen with
  | nil => simp [removeDuplicatesFrom]
  | cons x xs ih =>
    unfold removeDuplicatesFrom
    by_cases hx : x ∈ seen
    · rw [if_pos hx]; exact (ih seen).cons x
    · rw [if_neg hx]; exact (ih _).cons₂ x

theorem firstIndex_append_of_mem (a : QString) (l m : List QString) (h : a ∈ l) :
    firstIndex a (l ++ m) = firstIndex a l := by
  induction l with
  | nil => exact absurd h (List.not_mem_nil _)
  | cons x xs ih =>
    rw [List.cons_append]
    unfold firstIndex
    by_cases hx : x = a
    · rw [if_pos hx, if_pos hx]
    · rw [if_neg hx, if_neg hx,
        ih ((List.mem_cons.mp h).resolve_left (fun e => hx e.symm))]

/-- The scan keeps the order of first occurrences. -/
theorem firstIndex_removeDuplicatesFrom (a b : QString) (seen l : List QString)
    (ha : a ∈ l) (hb : b ∈ l) (has : a ∉ seen) (hbs : b ∉ seen) :
    firstIndex a (removeDuplicatesFrom seen l) < firstIndex b (removeDuplicatesFrom seen l) ↔
      firstIndex a l < firstIndex b l := by
  induction l generalizing seen with
  | nil => exact absurd ha (List.not_mem_nil _)
  | cons x xs ih =>
    unfold removeDuplicatesFrom
    by_cases hx : x ∈ seen
    · have hxa : x ≠ a := fun e => has (e ▸ hx)
      have hxb : x ≠ b := fun e => hbs (e ▸ hx)
      have ha2 : a ∈ xs := (List.mem_cons.mp ha).resolve_left (fun e => hxa e.symm)
      have hb2 : b ∈ xs := (List.mem_cons.mp hb).resolve_left (fun e => hxb e.symm)
      rw [if_pos hx, ih seen ha2 hb2 has hbs]
      simp only [firstIndex, if_neg hxa, if_neg hxb]
      omega
    · rw [if_neg hx]
      by_cases hxa : x = a
      · by_cases hxb : x = b
        · simp only [firstIndex, if_pos hxa, if_pos hxb]
        · simp only [firstIndex, if_pos hxa, if_neg hxb]
          omega
      · by_cases hxb : x = b
        · simp only [firstIndex, if_neg hxa, if_pos hxb]
          omega
        · have ha2 : a ∈ xs := (List.mem_cons.mp ha).resolve_left (fun e => hxa e.symm)
          have hb2 : b ∈ xs := (List.mem_cons.mp hb).resolve_left (fun e => hxb e.symm)
          have has2 : a ∉ x :: seen := fun h =>
            (List.mem_cons.mp h).elim (fun e => hxa e.symm) has
          have hbs2 : b ∉ x :: seen := fun h =>
            (List.mem_cons.mp h).elim (fun e => hxb e.symm) hbs
          have hi := ih _ ha2 hb2 has2 hbs2
          simp only [firstIndex, if_neg hxa, if_neg hxb]
          omega

theorem removeDuplicatesFrom_append_singleton (a : QString) (seen l : List QString)
    (h : a ∈ seen ∨ a ∈ l) :
    removeDuplicatesFrom seen (l ++ [a]) = removeDuplicatesFrom seen l := by
  induction l generalizing seen with
  | nil =>
    have ha : a ∈ seen := h.resolve_right (List.not_mem_nil _)
    simp [removeDuplicatesFrom, ha]
  | cons x xs ih =>
    rw [List.cons_append]
    unfold removeDuplicatesFrom
    by_cases hx : x ∈ seen
    · rw [if_pos hx, if_pos hx]
      apply ih
      rcases h with h | h
      · exact Or.inl h
      · rcases List.mem_cons.mp h with e | e
        · exact Or.inl (e ▸ hx)
        · exact Or.inr e
    · rw [if_neg hx, if_neg hx, ih]
      rcases h with h | h
      · exact Or.inl (List.mem_cons_of_mem _ h)
      · rcases List.mem_cons.mp h with e | e
        · exact Or.inl (e ▸ List.mem_cons_self _ _)
        · exact Or.inr e

theorem removeDuplicatesFrom_eq_self (seen l : List QString) (hl : l.Nodup)
    (hs : ∀ x, x ∈ l → x ∉ seen) : removeDuplicatesFrom seen l = l := by
  induction l generalizing seen with
  | nil => rfl
  | cons x xs ih =>
    unfold removeDuplicatesFrom
    rw [if_neg (hs x (List.mem_cons_self _ _)), ih _ (List.nodup_cons.mp hl).2]
    intro y hy h
    rcases List.mem_cons.mp h with e | e
    · exact (List.nodup_cons.mp hl).1 (e ▸ hy)
    · exact hs y (List.mem_cons_of_mem _ hy) e

theorem mem_removeDuplicates (a : QString) (l : List QString) :
    a ∈ removeDuplicates l ↔ a ∈ l := by
  unfold removeDuplicates
  rw [mem_removeDuplicatesFrom]
  simp

theorem nodup_removeDuplicates (l : List QString) : (removeDuplicates l).Nodup :=
  nodup_removeDuplicatesFrom [] l

theorem removeDuplicates_eq_self (l : List QString) (hl : l.Nodup) :
    removeDuplicates l = l :=
  removeDuplicatesFrom_eq_self [] l hl (fun _ _ => List.not_mem_nil _)

theorem mem_removeAll (a repo : QString) (l : List QString) :
    a ∈ removeAll l repo ↔ a ∈ l ∧ a ≠ repo := by
  unfold removeAll
  simp [List.mem_filter]

theorem value_setValue (s : QSettings) (k k2 : QString) (v : QVariant) :
    (s.setValue k v).value k2 = if k2 = k then v else s.value k2 := by
  unfold QSettings.setValue QSettings.value
  by_cases h : k2 = k
  · subst h; simp [AList.lookup_insert]
  · simp [h, AList.lookup_insert_ne h]

theorem contains_setValue (s : QSettings) (k k2 : QString) (v : QVariant) :
    (s.setValue k v).contains k2 = if k2 = k then true else s.contains k2 := by
  unfold QSettings.setValue QSettings.contains
  by_cases h : k2 = k
  · subst h; simp [AList.lookup_insert]
  · simp [h, AList.lookup_insert_ne h]

theorem value_remove (s : QSettings) (k k2 : QString) :
    (s.remove k).value k2 = if k2 = k then QVariant.invalid else s.value k2 := by
  unfold QSettings.remove QSettings.value
  by_cases h : k2 = k
  · subst h; simp [AList.lookup_erase]
  · simp [h, AList.lookup_erase_ne h]

theorem contains_remove (s : QSettings) (k k2 : QString) :
    (s.remove k).contains k2 = if k2 = k then false else s.contains k2 := by
  unfold QSettings.remove QSettings.contains
  by_cases h : k2 = k
  · subst h; simp [AList.lookup_erase]
  · simp [h, AList.lookup_erase_ne h]

/-- Reading a list guarded by `contains` is reading it unguarded: a missing key reads as the
empty list. -/
theorem guarded_toStringList (s : QSettings) (k : QString) :
    (if s.contains k then (s.value k).toStringList else []) = (s.value k).toStringList := by
  unfold QSettings.contains QSettings.value
  cases h : s.lookup k with
  | none => simp [QVariant.toStringList]
  | some v => simp

theorem urlKey_ne_enabled (repo : QString) :
    "repository-urls/".toList ++ repo ≠ "enabled-repos".toList := by
  intro h
  have := congrArg List.head? h
  simp at this

theorem urlKey_ne_disabled (repo : QString) :
    "repository-urls/".toList ++ repo ≠ "disabled-repos".toList := by
  intro h
  have := congrArg List.head? h
  simp at this

theorem enabled_ne_disabled : "enabled-repos".toList ≠ "disabled-repos".toList := by
  decide

theorem storedList_add_empty (ssuSettings : SsuCoreConfig) (name : QString) :
    storedList (add ssuSettings name []) "enabled-repos".toList =
      removeDuplicates (storedList ssuSettings "enabled-repos".toList ++ [name]) := by
  unfold storedList add
  simp only [guarded_toStringList, value_setValue, if_true]
  rfl

theorem storedList_disable (ssuSettings : SsuCoreConfig) (name : QString) :
    storedList (disable ssuSettings name) "disabled-repos".toList =
      removeDuplicates (storedList ssuSettings "disabled-repos".toList ++ [name]) := by
  unfold storedList disable
  simp only [guarded_toStringList, value_setValue, if_true]
  rfl

theorem storedList_enable (ssuSettings : SsuCoreConfig) (name : QString) :
    storedList (enable ssuSettings name) "disabled-repos".toList =
      removeDuplicates (removeAll (storedList ssuSettings "disabled-repos".toList) name) := by
  unfold storedList enable
  simp only [guarded_toStringList, value_setValue, if_true]
  rfl

/-- What appending a name and removing duplicates does to a list. -/
theorem appended_list_facts (old : List QString) (name : QString) :
    (removeDuplicates (old ++ [name])).Nodup ∧
    name ∈ removeDuplicates (old ++ [name]) ∧
    (∀ a, a ∈ removeDuplicates (old ++ [name]) ↔ a ∈ old ∨ a = name) ∧
    (∀ a b, a ∈ old → b ∈ old →
      (firstIndex a (removeDuplicates (old ++ [name])) <
          firstIndex b (removeDuplicates (old ++ [name])) ↔
        firstIndex a old < firstIndex b old)) := by
  refine ⟨nodup_removeDuplicates _, ?_, ?_, ?_⟩
  · rw [mem_removeDuplicates]; simp
  · intro a; rw [mem_removeDuplicates]; simp
  · intro a b ha hb
    unfold removeDuplicates
    rw [firstIndex_removeDuplicatesFrom a b [] (old ++ [name])
      (List.mem_append_left _ ha) (List.mem_append_left _ hb) (List.not_mem_nil _)
      (List.not_mem_nil _),
      firstIndex_append_of_mem a old [name] ha, firstIndex_append_of_mem b old [name] hb]

theorem lookup_setValue (s : QSettings) (k k2 : QString) (v : QVariant) :
    (s.setValue k v).lookup k2 = if k2 = k then some v else s.lookup k2 := by
  unfold QSettings.setValue
  by_cases h : k2 = k
  · subst h; simp [AList.lookup_insert]
  · simp [h, AList.lookup_insert_ne h]

theorem lookup_remove (s : QSettings) (k k2 : QString) :
    (s.remove k).lookup k2 = if k2 = k then none else s.lookup k2 := by
  unfold QSettings.remove
  by_cases h : k2 = k
  · subst h; simp [AList.lookup_erase]
  · simp [h, AList.lookup_erase_ne h]

/-- Removing a setting only when it is present is removing it. -/
theorem lookup_guarded_remove (s : QSettings) (k k2 : QString) :
    (if s.contains k then s.remove k else s).lookup k2 =
      if k2 = k then none else s.lookup k2 := by
  by_cases hc : s.contains k = true
  · rw [if_pos hc, lookup_remove]
  · rw [if_neg hc]
    by_cases h : k2 = k
    · subst h
      rw [if_pos rfl]
      unfold QSettings.contains at hc
      cases hl : s.lookup k2 with
      | none => rfl
      | some v => rw [hl] at hc; exact absurd rfl hc
    · rw [if_neg h]

theorem value_guarded_remove (s : QSettings) (k k2 : QString) (h : k2 ≠ k) :
    (if s.contains k then s.remove k else s).value k2 = s.value k2 := by
  have hl := lookup_guarded_remove s k k2
  rw [if_neg h] at hl
  unfold QSettings.value
  rw [hl]

theorem contains_guarded_remove (s : QSettings) (k k2 : QString) (h : k2 ≠ k) :
    (if s.contains k then s.remove k else s).contains k2 = s.contains k2 := by
  have hl := lookup_guarded_remove s k k2
  rw [if_neg h] at hl
  show (AList.lookup k2 (if s.contains k then s.remove k else s)).isSome = (s.lookup k2).isSome
  rw [hl]

theorem count_eq_one_of_nodup (l : List QString) (a : QString) (hl : l.Nodup) (ha : a ∈ l) :
    l.count a = 1 := by
  induction l with
  | nil => exact absurd ha (List.not_mem_nil _)
  | cons x xs ih =>
    by_cases hx : x = a
    · subst hx
      rw [List.count_cons_self, List.count_eq_zero_of_not_mem (List.nodup_cons.mp hl).1]
    · rw [List.count_cons_of_ne (fun e => hx e.symm)]
      exact ih (List.nodup_cons.mp hl).2
        ((List.mem_cons.mp ha).resolve_left (fun e => hx e.symm))

/-- The second half of `remove` (lines 76-83) on a store, key by key. -/
theorem lookup_remove_enabled (st : QSettings) (name k : QString) :
    (if st.contains "enabled-repos".toList then
        if (st.value "enabled-repos".toList).toStringList.contains name then
          st.setValue "enabled-repos".toList (QVariant.stringList (removeDuplicates
            (removeAll (st.value "enabled-repos".toList).toStringList name)))
        else st
      else st).lookup k =
      if k = "enabled-repos".toList ∧ st.contains "enabled-repos".toList = true ∧
          name ∈ (st.value "enabled-repos".toList).toStringList then
        some (QVariant.stringList (removeDuplicates
          (removeAll (st.value "enabled-repos".toList).toStringList name)))
      else st.lookup k := by
  by_cases hc : st.contains "enabled-repos".toList = true
  · rw [if_pos hc]
    by_cases hm : name ∈ (st.value "enabled-repos".toList).toStringList
    · have hm2 : (st.value "enabled-repos".toList).toStringList.contains name = true :=
        List.elem_iff.mpr hm
      rw [if_pos hm2, lookup_setValue]
      by_cases hk : k = "enabled-repos".toList
      · rw [if_pos hk, if_pos ⟨hk, hc, hm⟩]
      · rw [if_neg hk, if_neg (fun h => hk h.1)]
    · have hm2 : ¬ (st.value "enabled-repos".toList).toStringList.contains name = true :=
        fun h => hm (List.elem_iff.mp h)
      rw [if_neg hm2, if_neg (fun h => hm h.2.2)]
  · rw [if_neg hc, if_neg (fun h => hc h.2.1)]

/-- The store that `remove` leaves, key by key. -/
theorem lookup_remove_store (ssuSettings : SsuCoreConfig) (name k : QString) :
    (remove ssuSettings name).store.lookup k =
      if k = "enabled-repos".toList ∧ ssuSettings.store.contains "enabled-repos".toList = true ∧
          name ∈ storedList ssuSettings "enabled-repos".toList then
        some (QVariant.stringList
          (removeDuplicates (removeAll (storedList ssuSettings "enabled-repos".toList) name)))
      else if k = "repository-urls/".toList ++ name then none
      else ssuSettings.store.lookup k := by
  unfold remove storedList
  simp only []
  rw [lookup_remove_enabled,
    value_guarded_remove _ _ _ (Ne.symm (urlKey_ne_enabled name)),
    contains_guarded_remove _ _ _ (Ne.symm (urlKey_ne_enabled name)),
    lookup_guarded_remove]

/-! ## Template selection -/

theorem findTemplate_first (repoSettings : QSettings) (repoName : QString)
    (pre : List QString) (sect : QString) (post : List QString)
    (hpre : ∀ t, t ∈ pre → repoSettings.contains (t ++ "/".toList ++ repoName) = false)
    (hsect : repoSettings.contains (sect ++ "/".toList ++ repoName) = true) :
    findTemplate repoSettings repoName (pre ++ sect :: post) =
      (repoSettings.value (sect ++ "/".toList ++ repoName)).toString := by
  induction pre with
  | nil =>
    rw [List.nil_append, findTemplate, if_pos hsect]
  | cons t ts ih =>
    have ht := hpre t (List.mem_cons_self _ _)
    rw [List.cons_append, findTemplate, if_neg (by rw [ht]; exact Bool.false_ne_true)]
    exact ih (fun u hu => hpre u (List.mem_cons_of_mem _ hu))

theorem findTemplate_none (repoSettings : QSettings) (repoName : QString)
    (sections : List QString)
    (h : ∀ t, t ∈ sections → repoSettings.contains (t ++ "/".toList ++ repoName) = false) :
    findTemplate repoSettings repoName sections = [] := by
  induction sections with
  | nil => rfl
  | cons t ts ih =>
    have ht := h t (List.mem_cons_self _ _)
    rw [findTemplate, if_neg (by rw [ht]; exact Bool.false_ne_true)]
    exact ih (fun u hu => h u (List.mem_cons_of_mem _ hu))

/-- C11: template selection by first match. With repoName the name url looks up at lines
257-268 (the one adaptationVariables returned), when the settings hold no
repository-urls/repoName entry: the sections searched are flavour-flavour, rnd, all for an rnd
repository and release, all for a release repository; the template is the value of key
repoName in the first of them that contains the key; a repository configuration that agrees
on the sections up to that one yields the same template, whatever the later sections hold;
and the template is empty when no listed section contains the key. -/
theorem url_template_first_match (var : SsuVariables) (settings : SsuCoreConfig)
    (repoSettings : QSettings) (deviceInfo : SsuDeviceInfo) (name : QString)
    (rndRepo : Bool) (repoParameters parametersOverride : QHash) (repoName : QString)
    (hname : repoName = (urlParameters var settings repoSettings deviceInfo name rndRepo
      repoParameters parametersOverride).1)
    (hno : settings.store.contains ("repository-urls/".toList ++ repoName) = false) :
    url var settings repoSettings deviceInfo name rndRepo repoParameters parametersOverride =
      var.resolveString (urlTemplate settings repoSettings rndRepo repoName)
        (urlParameters var settings repoSettings deviceInfo name rndRepo repoParameters
          parametersOverride).2 ∧
    configSections settings rndRepo =
      (if rndRepo then [settings.flavour ++ "-flavour".toList, "rnd".toList, "all".toList]
       else ["release".toList, "all".toList]) ∧
    (∀ pre sect post, configSections settings rndRepo = pre ++ sect :: post →
      (∀ t, t ∈ pre → repoSettings.contains (t ++ "/".toList ++ repoName) = false) →
      repoSettings.contains (sect ++ "/".toList ++ repoName) = true →
      urlTemplate settings repoSettings rndRepo repoName =
          (repoSettings.value (sect ++ "/".toList ++ repoName)).toString ∧
        ∀ other : QSettings,
          (∀ t, t ∈ pre ++ [sect] →
            other.lookup (t ++ "/".toList ++ repoName) =
              repoSettings.lookup (t ++ "/".toList ++ repoName)) →
          urlTemplate settings other rndRepo repoName =
            urlTemplate settings repoSettings rndRepo repoName) ∧
    ((∀ t, t ∈ configSections settings rndRepo →
        repoSettings.contains (t ++ "/".toList ++ repoName) = false) →
      urlTemplate settings repoSettings rndRepo repoName = []) := by
  have hif : ¬ settings.store.contains ("repository-urls/".toList ++ repoName) = true := by
    rw [hno]; exact Bool.false_ne_true
  refine ⟨?_, rfl, ?_, ?_⟩
  · rw [hname]; rfl
  · intro pre sect post hsec hpre hsect
    have h1 : urlTemplate settings repoSettings rndRepo repoName =
        (repoSettings.value (sect ++ "/".toList ++ repoName)).toString := by
      unfold urlTemplate
      rw [if_neg hif, hsec]
      exact findTemplate_first repoSettings repoName pre sect post hpre hsect
    refine ⟨h1, ?_⟩
    intro other hagree
    have hpre2 : ∀ t, t ∈ pre → other.contains (t ++ "/".toList ++ repoName) = false := by
      intro t ht
      have := hpre t ht
      unfold QSettings.contains at this ⊢
      rw [hagree t (List.mem_append_left _ ht)]
      exact this
    have hsect2 : other.contains (sect ++ "/".toList ++ repoName) = true := by
      unfold QSettings.contains at hsect ⊢
      rw [hagree sect (List.mem_append_right _ (List.mem_singleton_self _))]
      exact hsect
    rw [h1]
    unfold urlTemplate
    rw [if_neg hif, hsec, findTemplate_first other repoName pre sect post hpre2 hsect2]
    unfold QSettings.value
    rw [hagree sect (List.mem_append_right _ (List.mem_singleton_self _))]
  · intro hnone
    unfold urlTemplate
    rw [if_neg hif]
    exact findTemplate_none repoSettings repoName _ hnone

/-- Witness of C11: the release repository adaptation1, looked up as adaptation; section
release lacks the key, section all holds it. -/
theorem url_template_first_match_witness :
    "adaptation".toList = (urlParameters exampleVariables exampleSettings exampleRepoSettings
      adaptationDeviceInfo "adaptation1".toList false ∅ ∅).1 ∧
    exampleSettings.store.contains ("repository-urls/".toList ++ "adaptation".toList) = false ∧
    urlTemplate exampleSettings exampleRepoSettings false "adaptation".toList =
      (exampleRepoSettings.value ("all".toList ++ "/".toList ++ "adaptation".toList)).toString :=
  ⟨by decide, by decide,
    ((url_template_first_match exampleVariables exampleSettings exampleRepoSettings
      adaptationDeviceInfo "adaptation1".toList false ∅ ∅ "adaptation".toList
      (by decide) (by decide)).2.2.1
        ["release".toList] "all".toList [] (by decide) (by decide) (by decide)).1⟩

/-! ## Properties of the registry -/

/-- C12: registry dedup for add. For every settings state and name, after add(name, "") the
list enabled-repos contains name exactly once, every entry that was in the list is still in
it, two such entries stand in the order of their first occurrences in the old list, and a
second add(name, "") leaves the same enabled-repos as the first. -/
theorem add_dedup (ssuSettings : SsuCoreConfig) (name : QString) :
    (storedList (add ssuSettings name []) "enabled-repos".toList).count name = 1 ∧
    (∀ a, a ∈ storedList ssuSettings "enabled-repos".toList →
      a ∈ storedList (add ssuSettings name []) "enabled-repos".toList) ∧
    (∀ a b, a ∈ storedList ssuSettings "enabled-repos".toList →
      b ∈ storedList ssuSettings "enabled-repos".toList →
      (firstIndex a (storedList (add ssuSettings name []) "enabled-repos".toList) <
          firstIndex b (storedList (add ssuSettings name []) "enabled-repos".toList) ↔
        firstIndex a (storedList ssuSettings "enabled-repos".toList) <
          firstIndex b (storedList ssuSettings "enabled-repos".toList))) ∧
    storedList (add (add ssuSettings name []) name []) "enabled-repos".toList =
      storedList (add ssuSettings name []) "enabled-repos".toList := by
  obtain ⟨hnd, hmem, hiff, hord⟩ :=
    appended_list_facts (storedList ssuSettings "enabled-repos".toList) name
  refine ⟨?_, ?_, ?_, ?_⟩
  · rw [storedList_add_empty]
    exact count_eq_one_of_nodup _ name hnd hmem
  · intro a ha
    rw [storedList_add_empty]
    exact (hiff a).mpr (Or.inl ha)
  · intro a b ha hb
    rw [storedList_add_empty]
    exact hord a b ha hb
  · rw [storedList_add_empty (add ssuSettings name []) name, storedList_add_empty]
    unfold removeDuplicates at hmem ⊢
    rw [removeDuplicatesFrom_append_singleton name [] _ (Or.inr hmem)]
    exact removeDuplicatesFrom_eq_self [] _ (nodup_removeDuplicatesFrom [] _)
      (fun _ _ => List.not_mem_nil _)

/-- Witness of C12: enabled-repos = foo, bar, foo and the name bar; the list becomes
foo, bar. -/
theorem add_dedup_witness :
    storedList registrySettings "enabled-repos".toList =
      ["foo".toList, "bar".toList, "foo".toList] ∧
    storedList (add registrySettings "bar".toList []) "enabled-repos".toList =
      ["foo".toList, "bar".toList] ∧
    (storedList (add registrySettings "bar".toList []) "enabled-repos".toList).count
      "bar".toList = 1 :=
  ⟨by decide, by decide, (add_dedup registrySettings "bar".toList).1⟩

/-- C13: enable reverses disable. For every settings state and name, after enable(name) the
list disabled-repos has no occurrence of name, every other entry that was in the list is
still in it, and disable(name) followed by enable(name) leaves name absent. -/
theorem enable_removes_name (ssuSettings : SsuCoreConfig) (name : QString) :
    name ∉ storedList (enable ssuSettings name) "disabled-repos".toList ∧
    (∀ a, a ≠ name → a ∈ storedList ssuSettings "disabled-repos".toList →
      a ∈ storedList (enable ssuSettings name) "disabled-repos".toList) ∧
    name ∉ storedList (enable (disable ssuSettings name) name) "disabled-repos".toList := by
  have habs : ∀ s : SsuCoreConfig,
      name ∉ storedList (enable s name) "disabled-repos".toList := by
    intro s h
    rw [storedList_enable, mem_removeDuplicates, mem_removeAll] at h
    exact h.2 rfl
  refine ⟨habs ssuSettings, ?_, habs (disable ssuSettings name)⟩
  intro a hne ha
  rw [storedList_enable, mem_removeDuplicates, mem_removeAll]
  exact ⟨ha, hne⟩

/-- Witness of C13: disabled-repos = foo, baz, foo; enable(foo) leaves baz only. -/
theorem enable_removes_name_witness :
    storedList registrySettings "disabled-repos".toList =
      ["foo".toList, "baz".toList, "foo".toList] ∧
    "foo".toList ∉ storedList (enable registrySettings "foo".toList) "disabled-repos".toList ∧
    "baz".toList ∈ storedList (enable registrySettings "foo".toList) "disabled-repos".toList :=
  ⟨by decide, (enable_removes_name registrySettings "foo".toList).1,
    (enable_removes_name registrySettings "foo".toList).2.1 "baz".toList (by decide)
      (by decide)⟩

/-- C14: disable. For every settings state and name, after disable(name) the list
disabled-repos contains name exactly once, the entries that were in it are still in it in the
order of their first occurrences, and enabled-repos and every repository-urls entry are
unchanged. -/
theorem disable_effect (ssuSettings : SsuCoreConfig) (name : QString) :
    (storedList (disable ssuSettings name) "disabled-repos".toList).count name = 1 ∧
    (∀ a, a ∈ storedList ssuSettings "disabled-repos".toList →
      a ∈ storedList (disable ssuSettings name) "disabled-repos".toList) ∧
    (∀ a b, a ∈ storedList ssuSettings "disabled-repos".toList →
      b ∈ storedList ssuSettings "disabled-repos".toList →
      (firstIndex a (storedList (disable ssuSettings name) "disabled-repos".toList) <
          firstIndex b (storedList (disable ssuSettings name) "disabled-repos".toList) ↔
        firstIndex a (storedList ssuSettings "disabled-repos".toList) <
          firstIndex b (storedList ssuSettings "disabled-repos".toList))) ∧
    (disable ssuSettings name).store.lookup "enabled-repos".toList =
      ssuSettings.store.lookup "enabled-repos".toList ∧
    (∀ x, (disable ssuSettings name).store.lookup ("repository-urls/".toList ++ x) =
      ssuSettings.store.lookup ("repository-urls/".toList ++ x)) := by
  obtain ⟨hnd, hmem, hiff, hord⟩ :=
    appended_list_facts (storedList ssuSettings "disabled-repos".toList) name
  refine ⟨?_, ?_, ?_, ?_, ?_⟩
  · rw [storedList_disable]
    exact count_eq_one_of_nodup _ name hnd hmem
  · intro a ha
    rw [storedList_disable]
    exact (hiff a).mpr (Or.inl ha)
  · intro a b ha hb
    rw [storedList_disable]
    exact hord a b ha hb
  · unfold disable
    simp only []
    rw [lookup_setValue, if_neg enabled_ne_disabled]
  · intro x
    unfold disable
    simp only []
    rw [lookup_setValue, if_neg (urlKey_ne_disabled x)]

/-- Witness of C14: disabled-repos = foo, baz, foo; disable(baz) leaves foo, baz. -/
theorem disable_effect_witness :
    storedList (disable registrySettings "baz".toList) "disabled-repos".toList =
      ["foo".toList, "baz".toList] ∧
    (storedList (disable registrySettings "baz".toList) "disabled-repos".toList).count
      "baz".toList = 1 ∧
    (disable registrySettings "baz".toList).store.lookup "enabled-repos".toList =
      registrySettings.store.lookup "enabled-repos".toList :=
  ⟨by decide, (disable_effect registrySettings "baz".toList).1,
    (disable_effect registrySettings "baz".toList).2.2.2.1⟩

theorem storedList_remove (ssuSettings : SsuCoreConfig) (name a : QString) :
    a ∈ storedList (remove ssuSettings name) "enabled-repos".toList ↔
      a ∈ storedList ssuSettings "enabled-repos".toList ∧ a ≠ name := by
  have hl := lookup_remove_store ssuSettings name "enabled-repos".toList
  by_cases hc : ssuSettings.store.contains "enabled-repos".toList = true ∧
      name ∈ storedList ssuSettings "enabled-repos".toList
  · rw [if_pos ⟨rfl, hc⟩] at hl
    have hs : storedList (remove ssuSettings name) "enabled-repos".toList =
        removeDuplicates (removeAll (storedList ssuSettings "enabled-repos".toList) name) := by
      unfold storedList QSettings.value at hl ⊢
      rw [hl]; rfl
    rw [hs, mem_removeDuplicates, mem_removeAll]
  · rw [if_neg (fun h => hc h.2), if_neg (Ne.symm (urlKey_ne_enabled name))] at hl
    have hs : storedList (remove ssuSettings name) "enabled-repos".toList =
        storedList ssuSettings "enabled-repos".toList := by
      unfold storedList QSettings.value
      rw [hl]
    rw [hs]
    constructor
    · intro ha
      refine ⟨ha, fun e => hc ⟨?_, e ▸ ha⟩⟩
      unfold storedList QSettings.value at ha
      unfold QSettings.contains
      cases hlk : ssuSettings.store.lookup "enabled-repos".toList with
      | none => rw [hlk] at ha; exact absurd ha (List.not_mem_nil _)
      | some v => rfl
    · exact fun h => h.1

/-- C15: remove. For every settings state and name, after remove(name) the key
repository-urls/name is absent and enabled-repos has no occurrence of name, while
disabled-repos, every repository-urls/other with other different from name, and the
membership of every other name in enabled-repos are unchanged. -/
theorem remove_effect (ssuSettings : SsuCoreConfig) (name : QString) :
    (remove ssuSettings name).store.contains ("repository-urls/".toList ++ name) = false ∧
    name ∉ storedList (remove ssuSettings name) "enabled-repos".toList ∧
    (remove ssuSettings name).store.lookup "disabled-repos".toList =
      ssuSettings.store.lookup "disabled-repos".toList ∧
    (∀ other, other ≠ name →
      (remove ssuSettings name).store.lookup ("repository-urls/".toList ++ other) =
        ssuSettings.store.lookup ("repository-urls/".toList ++ other)) ∧
    (∀ a, a ≠ name →
      (a ∈ storedList (remove ssuSettings name) "enabled-repos".toList ↔
        a ∈ storedList ssuSettings "enabled-repos".toList)) := by
  refine ⟨?_, ?_, ?_, ?_, ?_⟩
  · unfold QSettings.contains
    rw [lookup_remove_store, if_neg (fun h => urlKey_ne_enabled name h.1), if_pos rfl]
    rfl
  · intro h
    exact ((storedList_remove ssuSettings name name).mp h).2 rfl
  · rw [lookup_remove_store, if_neg (fun h => enabled_ne_disabled h.1.symm),
      if_neg (Ne.symm (urlKey_ne_disabled name))]
  · intro other hne
    rw [lookup_remove_store, if_neg (fun h => urlKey_ne_enabled other h.1),
      if_neg (fun h => hne (List.append_cancel_left h))]
  · intro a hne
    rw [storedList_remove]
    exact ⟨fun h => h.1, fun h => ⟨h, hne⟩⟩

/-- Witness of C15: remove(foo) on settings with an explicit URL for foo and
enabled-repos = foo, bar, foo. -/
theorem remove_effect_witness :
    registrySettings.store.contains "repository-urls/foo".toList = true ∧
    (remove registrySettings "foo".toList).store.contains
      ("repository-urls/".toList ++ "foo".toList) = false ∧
    "foo".toList ∉ storedList (remove registrySettings "foo".toList) "enabled-repos".toList ∧
    ("bar".toList ∈ storedList (remove registrySettings "foo".toList) "enabled-repos".toList ↔
      "bar".toList ∈ storedList registrySettings "enabled-repos".toList) :=
  ⟨by decide, (remove_effect registrySettings "foo".toList).1,
    (remove_effect registrySettings "foo".toList).2.1,
    (remove_effect registrySettings "foo".toList).2.2.2.2 "bar".toList (by decide)⟩

/-- C16: add with an explicit URL. For every settings state, name and non-empty url, after
add(name, url) the key repository-urls/name holds url, and enabled-repos and disabled-repos
are stored exactly as before. -/
theorem add_url_effect (ssuSettings : SsuCoreConfig) (name repoUrl : QString)
    (hurl : repoUrl ≠ []) :
    ((add ssuSettings name repoUrl).store.value ("repository-urls/".toList ++ name)).toString =
      repoUrl ∧
    (add ssuSettings name repoUrl).store.lookup "enabled-repos".toList =
      ssuSettings.store.lookup "enabled-repos".toList ∧
    (add ssuSettings name repoUrl).store.lookup "disabled-repos".toList =
      ssuSettings.store.lookup "disabled-repos".toList := by
  unfold add
  rw [if_neg hurl]
  simp only []
  refine ⟨?_, ?_, ?_⟩
  · rw [value_setValue, if_pos rfl]; rfl
  · rw [lookup_setValue, if_neg (Ne.symm (urlKey_ne_enabled name))]
  · rw [lookup_setValue, if_neg (Ne.symm (urlKey_ne_disabled name))]

/-- Witness of C16: add(bar, http://example/bar) on the example registry. -/
theorem add_url_effect_witness :
    "http://example/bar".toList ≠ [] ∧
    ((add registrySettings "bar".toList "http://example/bar".toList).store.value
      ("repository-urls/".toList ++ "bar".toList)).toString = "http://example/bar".toList ∧
    (add registrySettings "bar".toList "http://example/bar".toList).store.lookup
      "enabled-repos".toList = registrySettings.store.lookup "enabled-repos".toList ∧
    (add registrySettings "bar".toList "http://example/bar".toList).store.lookup
      "disabled-repos".toList = registrySettings.store.lookup "disabled-repos".toList :=
  ⟨by decide, add_url_effect registrySettings "bar".toList "http://example/bar".toList
    (by decide)⟩

/-! ## Parameter layers of url -/

theorem lookup_foldl_getValue (deviceInfo : SsuDeviceInfo) (model : Option QString)
    (k : QString) (keys : List QString) (p : QHash) :
    (keys.foldl
      (fun p key =>
        match deviceInfo.getValue model key with
        | some value => p.insert key value
        | none => p)
      p).lookup k =
      if k ∈ keys then
        (match deviceInfo.getValue model k with
          | some v => some v
          | none => p.lookup k)
      else p.lookup k := by
  induction keys generalizing p with
  | nil => simp
  | cons a rest ih =>
    rw [List.foldl_cons, ih]
    have hstep : (match deviceInfo.getValue model a with
          | some value => p.insert a value
          | none => p).lookup k =
        if k = a then
          (match deviceInfo.getValue model k with
            | some v => some v
            | none => p.lookup k)
        else p.lookup k := by
      by_cases hk : k = a
      · subst hk
        rw [if_pos rfl]
        cases deviceInfo.getValue model k with
        | none => rfl
        | some v => exact AList.lookup_insert _
      · rw [if_neg hk]
        cases deviceInfo.getValue model a with
        | none => rfl
        | some v => exact AList.lookup_insert_ne hk
    rw [hstep]
    by_cases hk : k = a
    · subst hk
      simp only [List.mem_cons, true_or, if_true]
      by_cases hr : k ∈ rest
      · rw [if_pos hr]
        cases deviceInfo.getValue model k <;> rfl
      · rw [if_neg hr]
    · by_cases hr : k ∈ rest
      · rw [if_pos hr, if_neg hk, if_pos (List.mem_cons_of_mem _ hr)]
      · have : k ∉ a :: rest := fun h => (List.mem_cons.mp h).elim hk hr
        rw [if_neg hr, if_neg hk, if_neg this]

theorem lookup_deviceStep_base (settings : SsuCoreConfig) (family model : QString)
    (p : QHash) (k : QString) :
    (((if settings.store.contains "adaptation".toList then
          p.insert "adaptation".toList (settings.store.value "adaptation".toList).toString
        else p).insert "deviceFamily".toList family).insert "deviceModel".toList
          model).lookup k =
      if k = "deviceModel".toList then some model
      else if k = "deviceFamily".toList then some family
      else if k = "adaptation".toList ∧ settings.store.contains "adaptation".toList = true then
        some (settings.store.value "adaptation".toList).toString
      else p.lookup k := by
  by_cases h1 : k = "deviceModel".toList
  · rw [if_pos h1, h1]
    exact AList.lookup_insert _
  · rw [if_neg h1, AList.lookup_insert_ne h1]
    by_cases h2 : k = "deviceFamily".toList
    · rw [if_pos h2, h2]
      exact AList.lookup_insert _
    · rw [if_neg h2, AList.lookup_insert_ne h2]
      by_cases hc : settings.store.contains "adaptation".toList = true
      · rw [if_pos hc]
        by_cases ha : k = "adaptation".toList
        · rw [if_pos ⟨ha, hc⟩, ha]
          exact AList.lookup_insert _
        · rw [if_neg (fun h => ha h.1), AList.lookup_insert_ne ha]
      · rw [if_neg hc, if_neg (fun h => hc h.2)]

/-- The working map after the device step, key by key. -/
theorem lookup_deviceStep (settings : SsuCoreConfig) (deviceInfo : SsuDeviceInfo)
    (model : Option QString) (p : QHash) (k : QString) :
    (deviceStep settings deviceInfo model p).lookup k =
      if k ∈ ["chip".toList, "adaptation".toList, "vendor".toList] ∧
          (deviceInfo.getValue model k).isSome = true then deviceInfo.getValue model k
      else if k = "deviceModel".toList then some (deviceInfo.deviceModel model)
      else if k = "deviceFamily".toList then some (deviceInfo.deviceFamily model)
      else if k = "adaptation".toList ∧ settings.store.contains "adaptation".toList = true then
        some (settings.store.value "adaptation".toList).toString
      else p.lookup k := by
  unfold deviceStep
  simp only []
  rw [lookup_foldl_getValue, lookup_deviceStep_base]
  by_cases hk : k ∈ ["chip".toList, "adaptation".toList, "vendor".toList]
  · rw [if_pos hk]
    cases hg : deviceInfo.getValue model k with
    | some v =>
      have hc : k ∈ ["chip".toList, "adaptation".toList, "vendor".toList] ∧
          (some v).isSome = true := ⟨hk, rfl⟩
      rw [if_pos hc]
    | none =>
      have hc : ¬ (k ∈ ["chip".toList, "adaptation".toList, "vendor".toList] ∧
          (none : Option QString).isSome = true) := fun h => Bool.false_ne_true h.2
      rw [if_neg hc]
  · have hc : ¬ (k ∈ ["chip".toList, "adaptation".toList, "vendor".toList] ∧
        (deviceInfo.getValue model k).isSome = true) := fun h => hk h.1
    rw [if_neg hk, if_neg hc]

/-- C17, counterexample: the caller parameters set chip = mine and deviceFamily = myfam,
parametersOverride is empty and no section changes the map; the device facts supply
chip = devchip and the family fam, and the finalized map holds the device values. -/
theorem device_facts_counterexample :
    callerFacts.lookup "chip".toList = some "mine".toList ∧
    callerFacts.lookup "deviceFamily".toList = some "myfam".toList ∧
    (∅ : QHash).lookup "chip".toList = none ∧
    (∅ : QHash).lookup "deviceFamily".toList = none ∧
    factsDeviceInfo.getValue none "chip".toList = some "devchip".toList ∧
    (urlParameters exampleVariables exampleSettings exampleRepoSettings factsDeviceInfo
      "foo".toList false callerFacts ∅).2.lookup "chip".toList = some "devchip".toList ∧
    (urlParameters exampleVariables exampleSettings exampleRepoSettings factsDeviceInfo
      "foo".toList false callerFacts ∅).2.lookup "deviceFamily".toList = some "fam".toList := by
  decide

/-- C17, amended: the device-fact keys are overwritten. For every working parameter map
reaching the device step (lines 225-239), after the step deviceFamily and deviceModel hold
the values of the device facts, and each key among chip, adaptation, vendor that the provider
supplies holds the supplied value, whatever the map held; the value already in the map is
kept only for chip or vendor that the provider does not supply, and for adaptation when
neither the provider nor the legacy setting supplies it (the legacy setting is used when
only it does). -/
theorem deviceStep_overwrites (settings : SsuCoreConfig) (deviceInfo : SsuDeviceInfo)
    (model : Option QString) (p : QHash) :
    (deviceStep settings deviceInfo model p).lookup "deviceFamily".toList =
      some (deviceInfo.deviceFamily model) ∧
    (deviceStep settings deviceInfo model p).lookup "deviceModel".toList =
      some (deviceInfo.deviceModel model) ∧
    (∀ k v, k ∈ ["chip".toList, "adaptation".toList, "vendor".toList] →
      deviceInfo.getValue model k = some v →
      (deviceStep settings deviceInfo model p).lookup k = some v) ∧
    (∀ k, k ∈ ["chip".toList, "vendor".toList] → deviceInfo.getValue model k = none →
      (deviceStep settings deviceInfo model p).lookup k = p.lookup k) ∧
    (deviceInfo.getValue model "adaptation".toList = none →
      (deviceStep settings deviceInfo model p).lookup "adaptation".toList =
        if settings.store.contains "adaptation".toList then
          some (settings.store.value "adaptation".toList).toString
        else p.lookup "adaptation".toList) := by
  refine ⟨?_, ?_, ?_, ?_, ?_⟩
  · rw [lookup_deviceStep, if_neg (fun h => absurd h.1 (by decide)),
      if_neg (by decide), if_pos rfl]
  · rw [lookup_deviceStep, if_neg (fun h => absurd h.1 (by decide)), if_pos rfl]
  · intro k v hk hg
    rw [lookup_deviceStep, if_pos ⟨hk, by rw [hg]; rfl⟩, hg]
  · intro k hk hg
    have h1 : k ≠ "deviceModel".toList := by
      intro e; rw [e] at hk; revert hk; decide
    have h2 : k ≠ "deviceFamily".toList := by
      intro e; rw [e] at hk; revert hk; decide
    have h3 : k ≠ "adaptation".toList := by
      intro e; rw [e] at hk; revert hk; decide
    rw [lookup_deviceStep, if_neg (fun h => by rw [hg] at h; exact Bool.false_ne_true h.2),
      if_neg h1, if_neg h2, if_neg (fun h => h3 h.1)]
  · intro hg
    rw [lookup_deviceStep, if_neg (fun h => by rw [hg] at h; exact Bool.false_ne_true h.2),
      if_neg (by decide), if_neg (by decide)]
    by_cases hc : settings.store.contains "adaptation".toList = true
    · rw [if_pos ⟨rfl, hc⟩, if_pos hc]
    · rw [if_neg (fun h => hc h.2), if_neg hc]

/-- Witness of C17 amended: the caller sets chip and deviceFamily, the device facts supply
both; after the device step the map holds the device values. -/
theorem deviceStep_overwrites_witness :
    (deviceStep exampleSettings factsDeviceInfo none callerFacts).lookup "deviceFamily".toList =
      some (factsDeviceInfo.deviceFamily none) ∧
    "chip".toList ∈ ["chip".toList, "adaptation".toList, "vendor".toList] ∧
    factsDeviceInfo.getValue none "chip".toList = some "devchip".toList ∧
    (deviceStep exampleSettings factsDeviceInfo none callerFacts).lookup "chip".toList =
      some "devchip".toList :=
  ⟨(deviceStep_overwrites exampleSettings factsDeviceInfo none callerFacts).1,
    by decide, by decide,
    (deviceStep_overwrites exampleSettings factsDeviceInfo none callerFacts).2.2.1
      "chip".toList "devchip".toList (by decide) (by decide)⟩

theorem lookup_fill (q : QHash) (k v : QString) :
    (if (!QHash.contains q k) = true then q.insert k v else q).lookup k =
      match q.lookup k with
      | some w => some w
      | none => some v := by
  unfold QHash.contains
  cases hq : q.lookup k with
  | none =>
    have hc : (!(none : Option QString).isSome) = true := rfl
    rw [if_pos hc]
    exact AList.lookup_insert _
  | some w =>
    have hc : ¬ (!(some w : Option QString).isSome) = true := Bool.false_ne_true
    rw [if_neg hc]
    exact hq

theorem lookup_fill_ne (q : QHash) (k v k2 : QString) (h : k2 ≠ k) :
    (if (!QHash.contains q k) = true then q.insert k v else q).lookup k2 = q.lookup k2 := by
  by_cases hc : (!QHash.contains q k) = true
  · rw [if_pos hc, AList.lookup_insert_ne h]
  · rw [if_neg hc]

/-- C18: the defaults of debugSplit and arch are fill-only. For every working parameter map
reaching the default step (lines 213-217): a value already present for debugSplit, or for
arch, is left unchanged; a missing debugSplit becomes packages and a missing arch becomes the
settings value of arch; after the step both keys are present. -/
theorem defaultsStep_fill_only (settings : SsuCoreConfig) (p : QHash) :
    (∀ v, p.lookup "debugSplit".toList = some v →
      (defaultsStep settings p).lookup "debugSplit".toList = some v) ∧
    (p.lookup "debugSplit".toList = none →
      (defaultsStep settings p).lookup "debugSplit".toList = some "packages".toList) ∧
    (∀ v, p.lookup "arch".toList = some v →
      (defaultsStep settings p).lookup "arch".toList = some v) ∧
    (p.lookup "arch".toList = none →
      (defaultsStep settings p).lookup "arch".toList =
        some (settings.store.value "arch".toList).toString) ∧
    QHash.contains (defaultsStep settings p) "debugSplit".toList = true ∧
    QHash.contains (defaultsStep settings p) "arch".toList = true := by
  have hne : "debugSplit".toList ≠ "arch".toList := by decide
  have hne2 : "arch".toList ≠ "debugSplit".toList := by decide
  have hD : (defaultsStep settings p).lookup "debugSplit".toList =
      match p.lookup "debugSplit".toList with
      | some v => some v
      | none => some "packages".toList := by
    unfold defaultsStep
    simp only []
    rw [lookup_fill_ne _ _ _ _ hne, lookup_fill]
  have hA : (defaultsStep settings p).lookup "arch".toList =
      match p.lookup "arch".toList with
      | some v => some v
      | none => some (settings.store.value "arch".toList).toString := by
    unfold defaultsStep
    simp only []
    rw [lookup_fill, lookup_fill_ne _ _ _ _ hne2]
  refine ⟨?_, ?_, ?_, ?_, ?_, ?_⟩
  · intro v hv; rw [hD, hv]
  · intro hv; rw [hD, hv]
  · intro v hv; rw [hA, hv]
  · intro hv; rw [hA, hv]
  · unfold QHash.contains
    rw [hD]
    cases p.lookup "debugSplit".toList <;> rfl
  · unfold QHash.contains
    rw [hA]
    cases p.lookup "arch".toList <;> rfl

/-- Witness of C18: a map that has arch = x1 and no debugSplit. -/
theorem defaultsStep_fill_only_witness :
    ((∅ : QHash).insert "arch".toList "x1".toList).lookup "arch".toList = some "x1".toList ∧
    ((∅ : QHash).insert "arch".toList "x1".toList).lookup "debugSplit".toList = none ∧
    (defaultsStep exampleSettings ((∅ : QHash).insert "arch".toList "x1".toList)).lookup
      "arch".toList = some "x1".toList ∧
    (defaultsStep exampleSettings ((∅ : QHash).insert "arch".toList "x1".toList)).lookup
      "debugSplit".toList = some "packages".toList :=
  ⟨by decide, by decide,
    (defaultsStep_fill_only exampleSettings
      ((∅ : QHash).insert "arch".toList "x1".toList)).2.2.1 "x1".toList (by decide),
    (defaultsStep_fill_only exampleSettings
      ((∅ : QHash).insert "arch".toList "x1".toList)).2.1 (by decide)⟩

/-! ## Failures of file operations -/

theorem lookup_writeRepos_skip (ops : FileOps) (rndMode : Bool) (m : QString)
    (repos : List QString) (d : Dir)
    (h : ∀ n, n ∈ repos → m = repoFileName rndMode n → ops.canOpen m = false) :
    (writeRepos ops rndMode repos d).lookup m = d.lookup m := by
  unfold writeRepos
  induction repos generalizing d with
  | nil => rfl
  | cons a rest ih =>
    rw [List.foldl_cons, ih _ (fun n hn => h n (List.mem_cons_of_mem _ hn)), lookup_writeFile]
    have hc : ¬ (m = repoFileName rndMode a ∧ ops.canOpen (repoFileName rndMode a) = true) := by
      rintro ⟨e, ho⟩
      have := h a (List.mem_cons_self _ _) e
      rw [e, ho] at this
      exact Bool.noConfusion this
    rw [if_neg hc]

/-- C19: best-effort reconciliation. File deletion and creation may each fail per file; for
every pattern of failures of an enabled run: every desired file that can be opened is
written; every stale managed file that can be removed is gone unless it is rewritten as
the file of a desired name; under the strict purge every unmanaged file that can be removed
is gone; and a file whose removal fails (and that is not rewritten) stays as it was. -/
theorem update_best_effort (ops : FileOps) (flags : DeviceMode) (deviceInfo : SsuDeviceInfo)
    (deviceMode : Int) (dir : Dir)
    (hen : hasFlag deviceMode flags.DisableRepoManager = false) :
    (∀ n, n ∈ deviceInfo.repos (hasFlag deviceMode flags.RndMode) →
      ops.canOpen (repoFileName (hasFlag deviceMode flags.RndMode) n) = true →
      (update ops flags deviceInfo deviceMode dir).lookup
          (repoFileName (hasFlag deviceMode flags.RndMode) n) =
        some (repoFileContent (hasFlag deviceMode flags.RndMode) n)) ∧
    (∀ m, matchesSsuFilter m = true →
      isStale (hasFlag deviceMode flags.RndMode)
        (deviceInfo.repos (hasFlag deviceMode flags.RndMode)) m = true →
      ops.canRemove m = true →
      (∀ n, n ∈ deviceInfo.repos (hasFlag deviceMode flags.RndMode) →
        m = repoFileName (hasFlag deviceMode flags.RndMode) n → ops.canOpen m = false) →
      (update ops flags deviceInfo deviceMode dir).lookup m = none) ∧
    (∀ m, hasFlag deviceMode flags.LenientMode = false →
      (deviceInfo.repos (hasFlag deviceMode flags.RndMode)).isEmpty = false →
      matchesSsuFilter m = false → ops.canRemove m = true →
      (update ops flags deviceInfo deviceMode dir).lookup m = none) ∧
    (∀ m, ops.canRemove m = false →
      (∀ n, n ∈ deviceInfo.repos (hasFlag deviceMode flags.RndMode) →
        m = repoFileName (hasFlag deviceMode flags.RndMode) n → ops.canOpen m = false) →
      (update ops flags deviceInfo deviceMode dir).lookup m = dir.lookup m) := by
  have hupd : ∀ m, (∀ n, n ∈ deviceInfo.repos (hasFlag deviceMode flags.RndMode) →
        m = repoFileName (hasFlag deviceMode flags.RndMode) n → ops.canOpen m = false) →
      (update ops flags deviceInfo deviceMode dir).lookup m =
        (purgeStale ops (hasFlag deviceMode flags.RndMode)
          (deviceInfo.repos (hasFlag deviceMode flags.RndMode))
          (if (!hasFlag deviceMode flags.LenientMode &&
              !(deviceInfo.repos (hasFlag deviceMode flags.RndMode)).isEmpty) = true then
            purgeUnmanaged ops dir
          else dir)).lookup m := by
    intro m hm
    unfold update
    simp only [hen, Bool.false_eq_true, if_false]
    exact lookup_writeRepos_skip ops _ m _ _ hm
  refine ⟨?_, ?_, ?_, ?_⟩
  · intro n hn hopen
    exact lookup_update_mem ops flags deviceInfo deviceMode dir n hen hn hopen
  · intro m hf hst hrm hm
    rw [hupd m hm, lookup_purgeStale, if_pos ⟨hf, hst, hrm⟩]
  · intro m hl hne hf hrm
    have hm : ∀ n, n ∈ deviceInfo.repos (hasFlag deviceMode flags.RndMode) →
        m = repoFileName (hasFlag deviceMode flags.RndMode) n → ops.canOpen m = false := by
      intro n _ e
      have := matchesSsuFilter_repoFileName (hasFlag deviceMode flags.RndMode) n
      rw [← e, hf] at this
      exact Bool.noConfusion this
    have hstrict : (!hasFlag deviceMode flags.LenientMode &&
        !(deviceInfo.repos (hasFlag deviceMode flags.RndMode)).isEmpty) = true := by
      rw [hl, hne]; rfl
    have hnf : ¬ (matchesSsuFilter m = true ∧
        isStale (hasFlag deviceMode flags.RndMode)
          (deviceInfo.repos (hasFlag deviceMode flags.RndMode)) m = true ∧
        ops.canRemove m = true) := by
      rintro ⟨h, _⟩
      rw [hf] at h
      exact Bool.noConfusion h
    rw [hupd m hm, lookup_purgeStale, if_neg hnf, if_pos hstrict, lookup_purgeUnmanaged,
      if_pos ⟨hf, hrm⟩]
  · intro m hrm hm
    have hnf : ¬ (matchesSsuFilter m = true ∧
        isStale (hasFlag deviceMode flags.RndMode)
          (deviceInfo.repos (hasFlag deviceMode flags.RndMode)) m = true ∧
        ops.canRemove m = true) := by
      rintro ⟨_, _, h⟩
      rw [hrm] at h
      exact Bool.noConfusion h
    have hnu : ¬ (matchesSsuFilter m = false ∧ ops.canRemove m = true) := by
      rintro ⟨_, h⟩
      rw [hrm] at h
      exact Bool.noConfusion h
    rw [hupd m hm, lookup_purgeStale, if_neg hnf]
    by_cases hstrict : (!hasFlag deviceMode flags.LenientMode &&
        !(deviceInfo.repos (hasFlag deviceMode flags.RndMode)).isEmpty) = true
    · rw [if_pos hstrict, lookup_purgeUnmanaged, if_neg hnu]
    · rw [if_neg hstrict]

/-- Witness of C19: the removal of ssu_bad.repo and the creation of ssu_foo_release.repo
fail; the file of a_b is still written, other.repo is still purged, and ssu_bad.repo stays. -/
theorem update_best_effort_witness :
    hasFlag 0 DeviceMode.std.DisableRepoManager = false ∧
    flakyOps.canRemove "ssu_bad.repo".toList = false ∧
    flakyOps.canOpen "ssu_foo_release.repo".toList = false ∧
    (update flakyOps DeviceMode.std exampleDeviceInfo 0 exampleDir).lookup
        (repoFileName (hasFlag 0 DeviceMode.std.RndMode) "a_b".toList) =
      some (repoFileContent (hasFlag 0 DeviceMode.std.RndMode) "a_b".toList) ∧
    (update flakyOps DeviceMode.std exampleDeviceInfo 0 exampleDir).lookup
      "other.repo".toList = none ∧
    (update flakyOps DeviceMode.std exampleDeviceInfo 0 exampleDir).lookup
      "ssu_bad.repo".toList = exampleDir.lookup "ssu_bad.repo".toList ∧
    (update flakyOps DeviceMode.std exampleDeviceInfo 0 exampleDir).lookup
      "ssu_foo_release.repo".toList = none :=
  ⟨by decide, by decide, by decide,
    (update_best_effort flakyOps DeviceMode.std exampleDeviceInfo 0 exampleDir (by decide)).1
      "a_b".toList (by decide) (by decide),
    (update_best_effort flakyOps DeviceMode.std exampleDeviceInfo 0 exampleDir
      (by decide)).2.2.1 "other.repo".toList (by decide) (by decide) (by decide) (by decide),
    (update_best_effort flakyOps DeviceMode.std exampleDeviceInfo 0 exampleDir
      (by decide)).2.2.2 "ssu_bad.repo".toList (by decide) (by decide),
    by decide⟩

/-! ## Duplicate-freeness of the registry lists -/

theorem storedList_congr (s1 s2 : SsuCoreConfig) (k : QString)
    (h : s1.store.lookup k = s2.store.lookup k) : storedList s1 k = storedList s2 k := by
  unfold storedList QSettings.value
  rw [h]

theorem add_url_store (ssuSettings : SsuCoreConfig) (name repoUrl : QString)
    (hurl : repoUrl ≠ []) (k : QString) (hk : k ≠ "repository-urls/".toList ++ name) :
    (add ssuSettings name repoUrl).store.lookup k = ssuSettings.store.lookup k := by
  unfold add
  rw [if_neg hurl]
  simp only []
  rw [lookup_setValue, if_neg hk]

theorem nodup_storedList_remove (ssuSettings : SsuCoreConfig) (name : QString)
    (h : (storedList ssuSettings "enabled-repos".toList).Nodup) :
    (storedList (remove ssuSettings name) "enabled-repos".toList).Nodup := by
  have hl := lookup_remove_store ssuSettings name "enabled-repos".toList
  by_cases hc : ssuSettings.store.contains "enabled-repos".toList = true ∧
      name ∈ storedList ssuSettings "enabled-repos".toList
  · rw [if_pos ⟨rfl, hc⟩] at hl
    have hs : storedList (remove ssuSettings name) "enabled-repos".toList =
        removeDuplicates (removeAll (storedList ssuSettings "enabled-repos".toList) name) := by
      unfold storedList QSettings.value at hl ⊢
      rw [hl]; rfl
    rw [hs]
    exact nodup_removeDuplicates _
  · rw [if_neg (fun h => hc h.2), if_neg (Ne.symm (urlKey_ne_enabled name))] at hl
    rw [storedList_congr _ _ _ hl]
    exact h

/-- C20: duplicate-freeness is an invariant of the registry. If enabled-repos and
disabled-repos hold no duplicate, they hold none after add(name, url), disable(name),
enable(name) and remove(name), for every name and url; and the list that add(name, ""),
disable(name) or enable(name) writes is duplicate-free whatever was stored. -/
theorem registry_nodup (ssuSettings : SsuCoreConfig) (name repoUrl : QString) :
    ((storedList ssuSettings "enabled-repos".toList).Nodup →
      (storedList ssuSettings "disabled-repos".toList).Nodup →
      ((storedList (add ssuSettings name repoUrl) "enabled-repos".toList).Nodup ∧
        (storedList (add ssuSettings name repoUrl) "disabled-repos".toList).Nodup) ∧
      ((storedList (disable ssuSettings name) "enabled-repos".toList).Nodup ∧
        (storedList (disable ssuSettings name) "disabled-repos".toList).Nodup) ∧
      ((storedList (enable ssuSettings name) "enabled-repos".toList).Nodup ∧
        (storedList (enable ssuSettings name) "disabled-repos".toList).Nodup) ∧
      ((storedList (remove ssuSettings name) "enabled-repos".toList).Nodup ∧
        (storedList (remove ssuSettings name) "disabled-repos".toList).Nodup)) ∧
    (storedList (add ssuSettings name []) "enabled-repos".toList).Nodup ∧
    (storedList (disable ssuSettings name) "disabled-repos".toList).Nodup ∧
    (storedList (enable ssuSettings name) "disabled-repos".toList).Nodup := by
  have hadd : (storedList (add ssuSettings name []) "enabled-repos".toList).Nodup := by
    rw [storedList_add_empty]; exact nodup_removeDuplicates _
  have hdis : (storedList (disable ssuSettings name) "disabled-repos".toList).Nodup := by
    rw [storedList_disable]; exact nodup_removeDuplicates _
  have hena : (storedList (enable ssuSettings name) "disabled-repos".toList).Nodup := by
    rw [storedList_enable]; exact nodup_removeDuplicates _
  refine ⟨?_, hadd, hdis, hena⟩
  intro he hd
  refine ⟨⟨?_, ?_⟩, ⟨?_, hdis⟩, ⟨?_, hena⟩, ⟨nodup_storedList_remove ssuSettings name he, ?_⟩⟩
  · by_cases hu : repoUrl = []
    · rw [hu]; exact hadd
    · rw [storedList_congr _ ssuSettings _ (add_url_store ssuSettings name repoUrl hu _
        (Ne.symm (urlKey_ne_enabled name)))]
      exact he
  · by_cases hu : repoUrl = []
    · have hl : (add ssuSettings name repoUrl).store.lookup "disabled-repos".toList =
          ssuSettings.store.lookup "disabled-repos".toList := by
        unfold add
        rw [if_pos hu]
        simp only []
        rw [lookup_setValue, if_neg (Ne.symm enabled_ne_disabled)]
      rw [storedList_congr _ ssuSettings _ hl]
      exact hd
    · rw [storedList_congr _ ssuSettings _ (add_url_store ssuSettings name repoUrl hu _
        (Ne.symm (urlKey_ne_disabled name)))]
      exact hd
  · have hl : (disable ssuSettings name).store.lookup "enabled-repos".toList =
        ssuSettings.store.lookup "enabled-repos".toList := by
      unfold disable
      simp only []
      rw [lookup_setValue, if_neg enabled_ne_disabled]
    rw [storedList_congr _ ssuSettings _ hl]
    exact he
  · have hl : (enable ssuSettings name).store.lookup "enabled-repos".toList =
        ssuSettings.store.lookup "enabled-repos".toList := by
      unfold enable
      simp only []
      rw [lookup_setValue, if_neg enabled_ne_disabled]
    rw [storedList_congr _ ssuSettings _ hl]
    exact he
  · have hl : (remove ssuSettings name).store.lookup "disabled-repos".toList =
        ssuSettings.store.lookup "disabled-repos".toList := by
      rw [lookup_remove_store, if_neg (fun h => enabled_ne_disabled h.1.symm),
        if_neg (Ne.symm (urlKey_ne_disabled name))]
    rw [storedList_congr _ ssuSettings _ hl]
    exact hd

/-- Witness of C20: from duplicate-free lists (the example registry after add and disable),
remove and enable leave duplicate-free lists; and add on the example registry, whose
enabled-repos holds foo twice, writes a duplicate-free list. -/
theorem registry_nodup_witness :
    ¬ (storedList registrySettings "enabled-repos".toList).Nodup ∧
    (storedList (add registrySettings "new".toList []) "enabled-repos".toList).Nodup ∧
    (storedList (disable (add registrySettings "new".toList []) "foo".toList)
      "enabled-repos".toList).Nodup ∧
    (storedList (remove (disable (add registrySettings "new".toList []) "foo".toList)
      "bar".toList) "enabled-repos".toList).Nodup :=
  ⟨by decide, (registry_nodup registrySettings "new".toList []).2.1,
    by decide,
    ((registry_nodup (disable (add registrySettings "new".toList []) "foo".toList)
      "bar".toList []).1 (by decide) (by decide)).2.2.2.1⟩

end Ssu
